import Mathlib

/-! # batch-client: upload gateway, Kafka listener and response channel

A shallow embedding of `src/kafka/kafka.go`, `src/storage/storage.go` and
`src/main.go`.  Pure constructions (`NewMessage`) are Lean functions, the
listener callback and the upload handler are state-passing functions over the
external outcomes they observe, and the unbuffered `responseChan` shared by the
listener goroutine and the upload handlers is a step function on the channel's
receive and send queues.
-/

namespace BatchClient

/-! ## kafka.go: message types -/

/-- Filter represents an imagor endpoint filter (kafka.go:19). -/
structure Filter where
  Name : String
  Args : String
  deriving DecidableEq, Repr

/-- KafkaMessageResponse represents a response from Kafka (kafka.go:25). -/
structure KafkaMessageResponse where
  UpdatedImageUrl : String
  deriving DecidableEq, Repr

/-- Params of kafka.go:29, field by field; the `float64` fields are `Float`.
The Go field `Params` is `Params_` here, a structure cannot have a field of
its own name. -/
structure Params where
  Params_ : Bool
  Path : String
  Image : String
  Unsafe : Bool
  Hash : String
  Meta : Bool
  Trim : Bool
  TrimBy : String
  TrimTolerance : Int
  CropLeft : Float
  CropTop : Float
  CropRight : Float
  CropBottom : Float
  FitIn : Bool
  Stretch : Bool
  Width : Int
  Height : Int
  PaddingLeft : Int
  PaddingTop : Int
  PaddingRight : Int
  PaddingBottom : Int
  HFlip : Bool
  VFlip : Bool
  HAlign : String
  VAlign : String
  Smart : Bool
  Filters : List Filter

/-- The zero value of `Params`: what a Go composite literal leaves in the
fields it does not mention. -/
def Params.zero : Params :=
  { Params_ := false, Path := "", Image := "", Unsafe := false, Hash := "",
    Meta := false, Trim := false, TrimBy := "", TrimTolerance := 0,
    CropLeft := 0, CropTop := 0, CropRight := 0, CropBottom := 0,
    FitIn := false, Stretch := false, Width := 0, Height := 0,
    PaddingLeft := 0, PaddingTop := 0, PaddingRight := 0, PaddingBottom := 0,
    HFlip := false, VFlip := false, HAlign := "", VAlign := "",
    Smart := false, Filters := [] }

/-- KafkaMessage struct to be sent in Kafka messages (kafka.go:60). -/
structure KafkaMessage where
  ImageParams : Params
  ImageName : String

/-- The method `KafkaClient.NewMessage` (kafka.go:110-153).  The receiver `kc`
is not used by the body. -/
def NewMessage (objName : String) : KafkaMessage :=
  let filters : List Filter :=
    [ { Name := "resize", Args := "90x1000" },
      { Name := "crop", Args := "0.6,0.3,0.9,0.9" },
      { Name := "rotate", Args := "90" } ]
  let imageParams : Params :=
    { Params.zero with
      Path := "",
      Image := objName,
      Trim := true,
      TrimTolerance := 10,
      CropLeft := 0.1,
      CropTop := 0.1,
      CropRight := 0.9,
      CropBottom := 0.9,
      Width := 500,
      Height := 500,
      HFlip := true,
      HAlign := "center",
      VAlign := "middle",
      Smart := true,
      Filters := filters }
  let kafkaMessage : KafkaMessage :=
    { ImageParams := imageParams,
      ImageName := objName }
  kafkaMessage

/-! ## package time: the part of `Time.Format` that `ListenAndRespond` uses -/

/-- The wall-clock reading returned by `time.Now()`: the fields `Time.Date`
and `Time.Clock` expose, and the nanosecond within the second. -/
structure Time where
  year : Nat
  month : Nat
  day : Nat
  hour : Nat
  minute : Nat
  second : Nat
  nanosecond : Nat
  deriving DecidableEq, Repr

/-- The helper `appendInt` of package time on a non-negative `x`: the decimal
digits of `x`, zero-padded on the left to `width`. -/
def appendInt (x width : Nat) : String :=
  let ds := (Nat.toDigits 10 x)
  String.mk (List.replicate (width - ds.length) '0' ++ ds)

/-- The call `t.Format("20060102150405")` of kafka.go:190: the layout is year
(4 digits), month, day, hour (24h), minute, second (2 digits each); it has no
element for a fraction of a second. -/
def Time.Format (t : Time) : String :=
  appendInt t.year 4 ++ appendInt t.month 2 ++ appendInt t.day 2 ++
    appendInt t.hour 2 ++ appendInt t.minute 2 ++ appendInt t.second 2

/-! ## storage.go -/

/-- An object of the bucket as `GetFile` sees it: its bytes, and whether
reading them through `io.Copy` fails. -/
structure Blob where
  data : String
  readErr : Bool
  deriving DecidableEq, Repr

/-- ClientUploader manages uploads to GCS (storage.go:22).  The client handle
`cl` is the bucket content it gives access to. -/
structure ClientUploader where
  cl : List (String × Blob)
  ProjectID : String
  BucketName : String
  UploadPath : String
  deriving DecidableEq, Repr

/-- The local file system under which `GetFile` writes: the files (the first
entry of a path is its current content) and the paths `os.Create` fails on. -/
structure Disk where
  files : List (String × String)
  locked : List String
  deriving DecidableEq, Repr

/-- Content of a local file, if it exists. -/
def Disk.read (d : Disk) (path : String) : Option String :=
  d.files.lookup path

/-- Replace the content of a local file (creating it if absent). -/
def Disk.write (d : Disk) (path data : String) : Disk :=
  { d with files := (path, data) :: d.files }

/-- The method `ClientUploader.GetFile` (storage.go:69-96): returns the error
(`none` is Go's `nil`, otherwise the name of the call that failed) and the
file system it leaves.  `os.Create` truncates
the destination before the object is opened, so the file exists (empty) on the
two later error paths. -/
def GetFile (c : ClientUploader) (disk : Disk) (object destFileName : String) :
    Option String × Disk :=
  let destFilePath := "./static/images/" ++ destFileName
  if disk.locked.contains destFilePath then
    (some "os.Create", disk)
  else
    let disk1 := disk.write destFilePath ""
    match c.cl.lookup (c.UploadPath ++ object) with
    | none => (some "Object.NewReader", disk1)
    | some rc =>
      if rc.readErr then (some "io.Copy", disk1)
      else (none, disk1.write destFilePath rc.data)

/-! ## kafka.go: the listener loop -/

/-- The part of `kgo.Record` the listener reads. -/
structure Record where
  Value : String
  deriving DecidableEq, Repr

/-- What the goroutine running `ListenAndRespond` has done so far. -/
structure Listener where
  /-- local files written by `GetFile` -/
  disk : Disk
  /-- operands of `responseChan <- ...` (kafka.go:197), oldest first -/
  sent : List KafkaMessageResponse
  /-- lines given to `log.Printf` -/
  logged : List String
  /-- number of records the callback was invoked on -/
  handled : Nat
  /-- number of completed iterations of the outer `for` -/
  polled : Nat
  deriving DecidableEq, Repr

/-- The callback passed to `fetches.EachRecord` (kafka.go:178-198), invoked on
`record` when `time.Now()` reads `now`, as far as the listener's own state
goes: on its last path it reaches the statement `responseChan <- v` and `v`
is appended to `sent`; whether and when that send completes is the channel's
matter, see `callback`.  `unmarshal` is `json.Unmarshal` into a
`KafkaMessageResponse` (`none`: it returned an error). -/
def onRecord (unmarshal : String → Option KafkaMessageResponse)
    (storageClient : ClientUploader) (st : Listener) (now : Time) (record : Record) :
    Listener :=
  let st := { st with handled := st.handled + 1 }
  match unmarshal record.Value with
  | none => { st with logged := st.logged ++ ["Error parsing Kafka record"] }
  | some kafkaMessage =>
    let imageUrl := kafkaMessage.UpdatedImageUrl
    let imageFileName := "processed_image_" ++ now.Format ++ ".png"
    match GetFile storageClient st.disk imageUrl imageFileName with
    | (some _, disk) =>
      { st with disk := disk, logged := st.logged ++ ["Error downloading image"] }
    | (none, disk) =>
      { st with disk := disk, sent := st.sent ++ [{ UpdatedImageUrl := imageFileName }] }

/-- What the callback hands to the channel for one record, read off the
source: `none` when the record is skipped (parse error or download error). -/
def replyFor (unmarshal : String → Option KafkaMessageResponse)
    (storageClient : ClientUploader) (disk : Disk) (now : Time) (record : Record) :
    Option KafkaMessageResponse :=
  match unmarshal record.Value with
  | none => none
  | some kafkaMessage =>
    match GetFile storageClient disk kafkaMessage.UpdatedImageUrl
        ("processed_image_" ++ now.Format ++ ".png") with
    | (some _, _) => none
    | (none, _) => some { UpdatedImageUrl := "processed_image_" ++ now.Format ++ ".png" }

/-! ## main.go: the `/upload` handler -/

/-- The two cases of the `select` at main.go:93-101. -/
inductive Wait where
  /-- `case response := <-responseChan` -/
  | reply (response : KafkaMessageResponse)
  /-- `case <-time.After(30 * time.Second)` -/
  | timedOut
  deriving DecidableEq, Repr

/-- One element of `files` (a `*multipart.FileHeader`) together with what the
external calls made for it return. -/
structure UploadItem where
  Filename : String
  /-- `fileHeader.Open()` returns an error -/
  openErr : Bool
  /-- `storageClient.UploadFile` returns an error -/
  uploadErr : Bool
  /-- `kafkaClient.ProduceMessage` returns an error -/
  produceErr : Bool
  /-- which case of the `select` fires, if the handler gets there -/
  wait : Wait
  deriving DecidableEq, Repr

/-- The `http.ResponseWriter` of one request: the status line once it has been
written, and the body written so far. -/
structure ResponseWriter where
  status : Option Nat
  body : String
  deriving DecidableEq, Repr

/-- The constant `http.StatusOK`. -/
abbrev StatusOK : Nat := 200

/-- The constant `http.StatusBadRequest`. -/
abbrev StatusBadRequest : Nat := 400

/-- The constant `http.StatusMethodNotAllowed`. -/
abbrev StatusMethodNotAllowed : Nat := 405

/-- The constant `http.StatusRequestTimeout`. -/
abbrev StatusRequestTimeout : Nat := 408

/-- The constant `http.StatusInternalServerError`. -/
abbrev StatusInternalServerError : Nat := 500

/-- The method `ResponseWriter.WriteHeader`: only the first call sets the status. -/
def ResponseWriter.WriteHeader (w : ResponseWriter) (code : Nat) : ResponseWriter :=
  match w.status with
  | some _ => w
  | none => { w with status := some code }

/-- The method `ResponseWriter.Write`: writes the header with 200 if no header
was written yet, then appends to the body. -/
def ResponseWriter.Write (w : ResponseWriter) (data : String) : ResponseWriter :=
  let w1 := w.WriteHeader StatusOK
  { w1 with body := w1.body ++ data }

/-- The function `http.Error`: `WriteHeader(code)` then the message and a newline. -/
def httpError (w : ResponseWriter) (error : String) (code : Nat) : ResponseWriter :=
  (w.WriteHeader code).Write (error ++ "\n")

/-- The text `fmt.Fprintf` writes at main.go:97. -/
def fragment (response : KafkaMessageResponse) : String :=
  "<div><img src=\x27/images/" ++ response.UpdatedImageUrl ++
    "\x27 class=\x27uploaded-image\x27 alt=\x27Processed Image\x27></div>"

/-- What one run of the handler has done. -/
structure Handler where
  w : ResponseWriter
  /-- `log.Fatalf` was reached: the process has exited -/
  exited : Bool
  /-- object names stored by successful `UploadFile` calls -/
  uploaded : List String
  /-- messages sent by successful `ProduceMessage` calls -/
  published : List KafkaMessage
  /-- number of `select` statements entered -/
  waited : Nat

/-- The loop `for _, fileHeader := range files` (main.go:63-102).  The call
`log.Fatalf` at main.go:76 writes the log line and exits the process, so the
`http.Error` and `return` that follow it are never reached. -/
def processFiles : List UploadItem → Handler → Handler
  | [], h => h
  | fileHeader :: rest, h =>
    if fileHeader.openErr then
      { h with w := httpError h.w "Error opening file" StatusInternalServerError }
    else
      let objectName := fileHeader.Filename
      if fileHeader.uploadErr then
        { h with exited := true }
      else
        let h1 := { h with uploaded := h.uploaded ++ [objectName] }
        let kafkaMsg := NewMessage objectName
        if fileHeader.produceErr then
          { h1 with w := httpError h1.w "Error sending message to Kafka" StatusInternalServerError }
        else
          let h2 := { h1 with published := h1.published ++ [kafkaMsg], waited := h1.waited + 1 }
          match fileHeader.wait with
          | Wait.reply response =>
            processFiles rest { h2 with w := h2.w.Write (fragment response) }
          | Wait.timedOut =>
            { h2 with
              w := httpError h2.w "Timed out waiting for Kafka response" StatusRequestTimeout }

/-- An incoming request: its method, whether `ParseMultipartForm` fails, and
`r.MultipartForm.File["images"]` (`nil` is the empty list). -/
structure Request where
  Method : String
  parseErr : Bool
  files : List UploadItem

/-- The handler registered for `/upload` (main.go:42-103).  The text of the
parse error, which the source appends to the 400 message, is left out. -/
def uploadHandler (r : Request) : Handler :=
  let h0 : Handler :=
    { w := { status := none, body := "" }, exited := false, uploaded := [],
      published := [], waited := 0 }
  if r.Method ≠ "POST" then
    { h0 with w := httpError h0.w "Invalid request method" StatusMethodNotAllowed }
  else if r.parseErr then
    { h0 with w := httpError h0.w "Error parsing multipart form" StatusBadRequest }
  else if r.files.isEmpty then
    { h0 with w := httpError h0.w "No files uploaded" StatusBadRequest }
  else
    processFiles r.files h0

/-! ## main.go and kafka.go: the shared, unbuffered `responseChan`

`responseChan` is made once (main.go:34) without a buffer and is the only
link between the listener goroutine and the handlers.  A job is one iteration
of the file loop; it has the number the schedule gives it.  The channel
follows the Go runtime: a receiver that finds no sender is appended to the
channel's receive queue, a sender that finds no receiver blocks, a sender that
finds receivers hands its value to the first of the queue, and a receiver whose
timer fires leaves the queue.  The first-in first-out order among blocked
receivers is the runtime's; the language specification leaves it open. -/

/-- How the `select` of a job ended. -/
inductive Outcome where
  /-- it received the `k`-th value the listener sent (counting from 0) -/
  | Satisfied (k : Nat) (reply : KafkaMessageResponse)
  | TimedOut
  deriving DecidableEq, Repr

/-- The state of `responseChan` and of the goroutines blocked on it. -/
structure ChanState where
  /-- jobs whose `ProduceMessage` has returned, in that order -/
  published : List Nat
  /-- jobs blocked in the `select`, the one waiting longest first -/
  recvq : List Nat
  /-- the listener blocked in `responseChan <- v`, with the number of the send -/
  sendq : Option (Nat × KafkaMessageResponse)
  /-- number of sends the listener has started -/
  nextSend : Nat
  /-- jobs whose `select` has ended, with how -/
  done : List (Nat × Outcome)
  deriving DecidableEq, Repr

/-- The state at start: nothing published, nobody blocked, nothing sent. -/
def ChanState.init : ChanState :=
  { published := [], recvq := [], sendq := none, nextSend := 0, done := [] }

/-- The steps of the goroutines that touch `responseChan`. -/
inductive Event where
  /-- main.go:87: `ProduceMessage` for job `j` returns `nil` -/
  | publish (j : Nat)
  /-- main.go:93: the handler of job `j` enters the `select` -/
  | wait (j : Nat)
  /-- main.go:98: the timer of job `j` fires while it is blocked in the `select` -/
  | timeout (j : Nat)
  /-- kafka.go:197: the listener executes `responseChan <- v` -/
  | send (v : KafkaMessageResponse)
  deriving DecidableEq, Repr

/-- How job `j` ended, if it has. -/
def ChanState.outcome (s : ChanState) (j : Nat) : Option Outcome :=
  s.done.lookup j

/-- One step; `none` when the event cannot happen in `s`: a job is published
once, enters its `select` once and only after publishing, only a blocked job
times out, and the listener, a single goroutine, starts no send while it is
blocked in one. -/
def step (s : ChanState) : Event → Option ChanState
  | Event.publish j =>
    if j ∈ s.published then none
    else some { s with published := s.published ++ [j] }
  | Event.wait j =>
    if j ∈ s.published ∧ j ∉ s.recvq ∧ j ∉ s.done.map Prod.fst then
      match s.sendq with
      | some (k, v) =>
        some { s with sendq := none, done := s.done ++ [(j, Outcome.Satisfied k v)] }
      | none => some { s with recvq := s.recvq ++ [j] }
    else none
  | Event.timeout j =>
    if j ∈ s.recvq then
      some { s with recvq := s.recvq.erase j, done := s.done ++ [(j, Outcome.TimedOut)] }
    else none
  | Event.send v =>
    match s.sendq with
    | some _ => none
    | none =>
      match s.recvq with
      | j :: rest =>
        some { s with recvq := rest, nextSend := s.nextSend + 1,
                      done := s.done ++ [(j, Outcome.Satisfied s.nextSend v)] }
      | [] => some { s with sendq := some (s.nextSend, v), nextSend := s.nextSend + 1 }

/-- Run a schedule from `s`; `none` if one of its events cannot happen. -/
def run : ChanState → List Event → Option ChanState
  | s, [] => some s
  | s, e :: es =>
    match step s e with
    | none => none
    | some s1 => run s1 es

/-- The case of the `select` that fired for job `j` in `s`. -/
def ChanState.selectOf (s : ChanState) (j : Nat) : Option Wait :=
  match s.outcome j with
  | some (Outcome.Satisfied _ v) => some (Wait.reply v)
  | some Outcome.TimedOut => some Wait.timedOut
  | none => none

/-- A file for which opening, storing and publishing succeed, and whose
`select` ends as `wait`. -/
def okItem (name : String) (wait : Wait) : UploadItem :=
  { Filename := name, openErr := false, uploadErr := false, produceErr := false, wait := wait }

/-- A `POST /upload` request whose form parsed, carrying `files`. -/
def postUpload (files : List UploadItem) : Request :=
  { Method := "POST", parseErr := false, files := files }

/-- The number of the send a finished job received, if it received one. -/
def deliveredIdx (e : Nat × Outcome) : Option Nat :=
  match e.2 with
  | Outcome.Satisfied k _ => some k
  | Outcome.TimedOut => none

/-- Sends number `k`, `k+1`, ... of the values `vs`, received by the jobs `js`
in order. -/
def pairUp : List Nat → Nat → List KafkaMessageResponse → List (Nat × Outcome)
  | j :: js, k, v :: vs => (j, Outcome.Satisfied k v) :: pairUp js (k + 1) vs
  | _, _, _ => []

/-- The jobs that enter their `select` in a schedule, in that order. -/
def waitsIn (es : List Event) : List Nat :=
  es.filterMap (fun e => match e with
    | Event.wait j => some j
    | _ => none)

/-- The values the listener sends in a schedule, in that order. -/
def sendsIn (es : List Event) : List KafkaMessageResponse :=
  es.filterMap (fun e => match e with
    | Event.send v => some v
    | _ => none)

/-- The jobs published in a schedule, in that order. -/
def publishesIn (es : List Event) : List Nat :=
  es.filterMap (fun e => match e with
    | Event.publish j => some j
    | _ => none)

/-- The state agrees with the values `vs` the listener has sent so far: the
counter is their number, and a value received or pending under the number `k`
is the `k`-th of them. -/
structure SentSoFar (vs : List KafkaMessageResponse) (s : ChanState) : Prop where
  count : s.nextSend = vs.length
  received : ∀ j k v, (j, Outcome.Satisfied k v) ∈ s.done → vs[k]? = some v
  pending : ∀ pv, s.sendq = some pv → vs[pv.1]? = some pv.2

/-- Whether an event is a job entering its `select`. -/
def Event.isWait : Event → Bool
  | Event.wait _ => true
  | _ => false

/-- Whether an event is a timer firing. -/
def Event.isTimeout : Event → Bool
  | Event.timeout _ => true
  | _ => false

/-- The files of one request whose `i`-th file is job `first + i`: each file is
stored and published, and its `select` ends the way the channel state says. -/
def requestItems (s : ChanState) : Nat → List String → List UploadItem
  | _, [] => []
  | first, name :: names =>
    okItem name ((s.selectOf first).getD Wait.timedOut) :: requestItems s (first + 1) names

/-- What holds of every state the goroutines can reach. -/
structure Inv (s : ChanState) : Prop where
  recvq_nodup : s.recvq.Nodup
  done_nodup : (s.done.map Prod.fst).Nodup
  disjoint : ∀ j ∈ s.recvq, j ∉ s.done.map Prod.fst
  idx_nodup : (s.done.filterMap deliveredIdx).Nodup
  idx_lt : ∀ k ∈ s.done.filterMap deliveredIdx,
    k < (match s.sendq with
         | some pv => pv.1
         | none => s.nextSend)
  pending_idx : ∀ pv, s.sendq = some pv → pv.1 + 1 = s.nextSend
  blocked_idle : s.sendq ≠ none → s.recvq = []
  conserved : (s.done.filterMap deliveredIdx).length + (if s.sendq.isSome then 1 else 0) =
    s.nextSend

/-! ## kafka.go: the listener loop on the channel

The send of kafka.go:197 is a send on the unbuffered `responseChan`: it
returns only when a handler receives the value.  The listener therefore takes
its next step (the next record of the poll, or the end of the poll) only when
it is not blocked in a send. -/

/-- The callback passed to `fetches.EachRecord` (kafka.go:178-198) with the
channel it sends on, invoked on `record` when `time.Now()` reads `now`.  On
the last path the send is the step `Event.send` of the channel: the value goes
to the first waiting job, or the listener stays blocked in the send
(`sendq`).  `none`: the listener is still blocked in an earlier send. -/
def callback (unmarshal : String → Option KafkaMessageResponse)
    (storageClient : ClientUploader) (st : Listener) (responseChan : ChanState)
    (now : Time) (record : Record) : Option (Listener × ChanState) :=
  let st := { st with handled := st.handled + 1 }
  match unmarshal record.Value with
  | none => some ({ st with logged := st.logged ++ ["Error parsing Kafka record"] }, responseChan)
  | some kafkaMessage =>
    let imageUrl := kafkaMessage.UpdatedImageUrl
    let imageFileName := "processed_image_" ++ now.Format ++ ".png"
    match GetFile storageClient st.disk imageUrl imageFileName with
    | (some _, disk) =>
      some ({ st with disk := disk, logged := st.logged ++ ["Error downloading image"] },
        responseChan)
    | (none, disk) =>
      match step responseChan (Event.send { UpdatedImageUrl := imageFileName }) with
      | none => none
      | some chan1 =>
        some ({ st with disk := disk, sent := st.sent ++ [{ UpdatedImageUrl := imageFileName }] },
          chan1)

/-- The goroutine of `ListenAndRespond` and the channel it was given. -/
structure ListenLoop where
  /-- what the listener has done so far -/
  st : Listener
  /-- the argument `responseChan` -/
  responseChan : ChanState
  /-- the records still to come: the rest of the current poll first, then the
  polls `PollFetches` returns later, each record with the clock reading at
  which it is handled -/
  fetches : List (List (Time × Record))
  deriving DecidableEq, Repr

/-- Who moves next. -/
inductive Move where
  /-- a handler: a publish, a wait or a timeout -/
  | handler (e : Event)
  /-- the listener: the callback on the next record of the poll, or, the poll
  finished, the end of the iteration of the `for` -/
  | listener
  deriving DecidableEq, Repr

/-- One move; `none` when it cannot happen: only the listener sends, and the
listener cannot move while it is blocked in the send of the previous record, or
when `PollFetches` has nothing more to return. -/
def loopStep (unmarshal : String → Option KafkaMessageResponse)
    (storageClient : ClientUploader) (l : ListenLoop) : Move → Option ListenLoop
  | Move.handler (Event.send _) => none
  | Move.handler e =>
    match step l.responseChan e with
    | none => none
    | some chan1 => some { l with responseChan := chan1 }
  | Move.listener =>
    if l.responseChan.sendq.isSome then none
    else
      match l.fetches with
      | [] => none
      | [] :: later =>
        some { l with st := { l.st with polled := l.st.polled + 1 }, fetches := later }
      | ((now, record) :: batch) :: later =>
        match callback unmarshal storageClient l.st l.responseChan now record with
        | none => none
        | some (st1, chan1) => some { st := st1, responseChan := chan1, fetches := batch :: later }

/-- The method `KafkaClient.ListenAndRespond` (kafka.go:175-202) run together
with the handlers along a schedule of moves; `none` if a move cannot happen.
The loop has no exit: a schedule is a finite prefix of a run. -/
def ListenAndRespond (unmarshal : String → Option KafkaMessageResponse)
    (storageClient : ClientUploader) : ListenLoop → List Move → Option ListenLoop
  | l, [] => some l
  | l, mv :: sch =>
    match loopStep unmarshal storageClient l mv with
    | none => none
    | some l1 => ListenAndRespond unmarshal storageClient l1 sch

/-- The listener at process start (main.go:34-37): a fresh channel, nothing
done yet, `polls` still to come, local files as in `disk`. -/
def boot (disk : Disk) (polls : List (List (Time × Record))) : ListenLoop :=
  { st := { disk := disk, sent := [], logged := [], handled := 0, polled := 0 },
    responseChan := ChanState.init,
    fetches := polls }

/-- A schedule for one poll in which a handler is waiting whenever the listener
handles a record: job `j`, `j+1`, ... is published and enters its `select`
before the first, second, ... record; the last move ends the poll. -/
def serveBatch : Nat → List (Time × Record) → List Move
  | _, [] => [Move.listener]
  | j, _ :: batch =>
    [Move.handler (Event.publish j), Move.handler (Event.wait j), Move.listener] ++
      serveBatch (j + 1) batch

/-- The schedule `serveBatch` poll after poll. -/
def serve : Nat → List (List (Time × Record)) → List Move
  | _, [] => []
  | j, batch :: later => serveBatch j batch ++ serve (j + batch.length) later

/-- The listener is not blocked and the jobs `n`, `n+1`, ... have not been used. -/
structure Fresh (n : Nat) (c : ChanState) : Prop where
  published_lt : ∀ j ∈ c.published, j < n
  recvq_lt : ∀ j ∈ c.recvq, j < n
  done_lt : ∀ j ∈ c.done.map Prod.fst, j < n
  idle : c.sendq = none

/-! ## Concrete inputs used to evaluate the code -/

/-- A decoder for the compact encoding of a reply payload, an object with the
one key `updated_image_url` and a string without escapes: the behaviour of
`json.Unmarshal` on such payloads, an error (`none`) on anything else. -/
def decodeReply (value : String) : Option KafkaMessageResponse :=
  let pre := "\x7b\x22updated_image_url\x22:\x22".toList
  let suf := "\x22\x7d".toList
  let cs := value.toList
  if pre.isPrefixOf cs ∧ suf.isSuffixOf (cs.drop pre.length) then
    let u := (cs.drop pre.length).take (cs.length - pre.length - suf.length)
    if u.all (fun c => c.toNat ≠ 34 ∧ c.toNat ≠ 92) then some ⟨String.mk u⟩ else none
  else none

/-- The compact encoding of the reply payload with result locator `u`. -/
def replyPayload (u : String) : String :=
  "\x7b\x22updated_image_url\x22:\x22" ++ u ++ "\x22\x7d"

/-- A bucket holding two processed images. -/
def sampleStore : ClientUploader :=
  { cl := [("bar.png", { data := "bytes of bar", readErr := false }),
           ("baz.png", { data := "bytes of baz", readErr := false })],
    ProjectID := "project", BucketName := "bucket", UploadPath := "" }

/-- The listener before its first poll, on an empty writable directory. -/
def Listener.start : Listener :=
  { disk := { files := [], locked := [] }, sent := [], logged := [], handled := 0, polled := 0 }

/-- Concatenation of the strings of a list, in order. -/
def concat : List String → String
  | [] => ""
  | s :: rest => s ++ concat rest

/-! # Theorems -/

/-- C9: `NewMessage` is total and depends on `objName` only through the two
locator fields: `ImageName` and `ImageParams.Image` are `objName`, every other
field has the fixed value written in the source (fields the literal omits are
zero), so two descriptors differ at most in those two fields. -/
theorem NewMessage_fixed_parameters (a b : String) :
    (NewMessage a).ImageName = a ∧
    (NewMessage a).ImageParams.Image = a ∧
    (NewMessage a).ImageParams =
      { Params_ := false, Path := "", Image := a, Unsafe := false, Hash := "",
        Meta := false, Trim := true, TrimBy := "", TrimTolerance := 10,
        CropLeft := 0.1, CropTop := 0.1, CropRight := 0.9, CropBottom := 0.9,
        FitIn := false, Stretch := false, Width := 500, Height := 500,
        PaddingLeft := 0, PaddingTop := 0, PaddingRight := 0, PaddingBottom := 0,
        HFlip := true, VFlip := false, HAlign := "center", VAlign := "middle",
        Smart := true,
        Filters := [⟨"resize", "90x1000"⟩, ⟨"crop", "0.6,0.3,0.9,0.9"⟩, ⟨"rotate", "90"⟩] } ∧
    NewMessage a =
      { ImageParams := { (NewMessage b).ImageParams with Image := a },
        ImageName := a } := by
  refine ⟨rfl, rfl, rfl, rfl⟩

/-! ## The listener loop -/

theorem GetFile_locked (c : ClientUploader) (d : Disk) (o n : String) :
    (GetFile c d o n).2.locked = d.locked := by
  unfold GetFile
  simp only [Disk.write]
  split
  · rfl
  · split
    · rfl
    · split <;> rfl

theorem GetFile_err_congr (c : ClientUploader) (d d' : Disk) (o n : String)
    (h : d.locked = d'.locked) : (GetFile c d o n).1 = (GetFile c d' o n).1 := by
  unfold GetFile
  simp only [Disk.write, h]
  split
  · rfl
  · split
    · rfl
    · split <;> rfl

theorem replyFor_congr (um : String → Option KafkaMessageResponse) (sc : ClientUploader)
    (d d' : Disk) (now : Time) (record : Record) (h : d.locked = d'.locked) :
    replyFor um sc d now record = replyFor um sc d' now record := by
  unfold replyFor
  cases hu : um record.Value with
  | none => rfl
  | some m =>
    simp only
    have e := GetFile_err_congr sc d d' m.UpdatedImageUrl
      ("processed_image_" ++ now.Format ++ ".png") h
    rcases h1 : GetFile sc d m.UpdatedImageUrl ("processed_image_" ++ now.Format ++ ".png")
      with ⟨e1, d1⟩
    rcases h2 : GetFile sc d' m.UpdatedImageUrl ("processed_image_" ++ now.Format ++ ".png")
      with ⟨e2, d2⟩
    rw [h1, h2] at e
    simp only at e
    subst e
    cases e1 <;> rfl

theorem onRecord_effect (um : String → Option KafkaMessageResponse) (sc : ClientUploader)
    (st : Listener) (now : Time) (record : Record) :
    (onRecord um sc st now record).sent = st.sent ++ (replyFor um sc st.disk now record).toList ∧
    (onRecord um sc st now record).handled = st.handled + 1 ∧
    (onRecord um sc st now record).polled = st.polled ∧
    (onRecord um sc st now record).disk.locked = st.disk.locked := by
  unfold onRecord replyFor
  cases hu : um record.Value with
  | none => simp
  | some m =>
    simp only
    have hl := GetFile_locked sc st.disk m.UpdatedImageUrl
      ("processed_image_" ++ now.Format ++ ".png")
    rcases h1 : GetFile sc st.disk m.UpdatedImageUrl ("processed_image_" ++ now.Format ++ ".png")
      with ⟨e1, d1⟩
    rw [h1] at hl
    cases e1 with
    | none => simpa using hl
    | some e => simpa using hl

/-! ## What the listener hands to a waiting job -/

/-- A successful `GetFile` found the object and left its bytes in the
destination file. -/
theorem GetFile_ok (c : ClientUploader) (d : Disk) (o n : String)
    (h : (GetFile c d o n).1 = none) :
    ∃ rc, c.cl.lookup (c.UploadPath ++ o) = some rc ∧
      GetFile c d o n =
        (none, (d.write ("./static/images/" ++ n) "").write ("./static/images/" ++ n) rc.data) := by
  unfold GetFile at h ⊢
  simp only at h ⊢
  split at h
  · exact absurd h (by simp)
  · rename_i hl
    rw [if_neg hl]
    cases hc : c.cl.lookup (c.UploadPath ++ o) with
    | none => rw [hc] at h; exact absurd h (by simp)
    | some rc =>
      rw [hc] at h
      simp only at h ⊢
      split at h
      · exact absurd h (by simp)
      · rename_i hr
        exact ⟨rc, rfl, by rw [if_neg hr]⟩

/-- C5 (as the code has it): for a record that parses to the locator `u` and
whose download succeeds, the value sent on the channel is the local file name
`processed_image_<timestamp>.png`, not `u`; `u` names the bucket object whose
bytes are stored under that local name, and the handler renders the local
name into the fragment. -/
theorem onRecord_sends_local_file_name (um : String → Option KafkaMessageResponse)
    (sc : ClientUploader) (st : Listener) (now : Time) (record : Record) (u f : String)
    (hparse : um record.Value = some { UpdatedImageUrl := u })
    (hget : (GetFile sc st.disk u ("processed_image_" ++ now.Format ++ ".png")).1 = none) :
    (onRecord um sc st now record).sent =
      st.sent ++ [{ UpdatedImageUrl := "processed_image_" ++ now.Format ++ ".png" }] ∧
    (∃ rc, sc.cl.lookup (sc.UploadPath ++ u) = some rc ∧
      (onRecord um sc st now record).disk.read
        ("./static/images/" ++ ("processed_image_" ++ now.Format ++ ".png")) = some rc.data) ∧
    (uploadHandler (postUpload [okItem f
        (Wait.reply { UpdatedImageUrl := "processed_image_" ++ now.Format ++ ".png" })])).w =
      { status := some 200,
        body := "<div><img src=\x27/images/" ++ ("processed_image_" ++ now.Format ++ ".png") ++
          "\x27 class=\x27uploaded-image\x27 alt=\x27Processed Image\x27></div>" } := by
  refine ⟨?_, ?_, ?_⟩
  · unfold onRecord
    simp only [hparse]
    rcases hg : GetFile sc st.disk u ("processed_image_" ++ now.Format ++ ".png") with ⟨e1, d1⟩
    rw [hg] at hget
    simp only at hget
    subst hget
    rfl
  · obtain ⟨rc, hrc, hg⟩ := GetFile_ok sc st.disk u _ hget
    refine ⟨rc, hrc, ?_⟩
    unfold onRecord
    simp only [hparse, hg]
    simp [Disk.read, Disk.write, List.lookup]
  · simp [uploadHandler, postUpload, okItem, processFiles, ResponseWriter.Write,
      ResponseWriter.WriteHeader, fragment]

/-- The theorem `onRecord_sends_local_file_name` at the payload of scenario 1. -/
theorem onRecord_sends_local_file_name_witness :
    decodeReply (replyPayload "bar.png") = some { UpdatedImageUrl := "bar.png" } ∧
    (onRecord decodeReply sampleStore Listener.start ⟨2024, 1, 2, 3, 4, 5, 0⟩
      ⟨replyPayload "bar.png"⟩).sent =
      Listener.start.sent ++
        [{ UpdatedImageUrl := "processed_image_" ++ Time.Format ⟨2024, 1, 2, 3, 4, 5, 0⟩ ++ ".png" }] :=
  ⟨by decide,
   (onRecord_sends_local_file_name decodeReply sampleStore Listener.start
      ⟨2024, 1, 2, 3, 4, 5, 0⟩ ⟨replyPayload "bar.png"⟩ "bar.png" "foo.png"
      (by decide) (by decide)).1⟩

/-- C5 as stated fails: the reply payload carries `bar.png`, it parses and the
download succeeds, yet the job receives `processed_image_20240102030405.png`
and that name, not `bar.png`, is rendered into the fragment. -/
theorem reply_locator_not_forwarded :
    decodeReply (replyPayload "bar.png") = some { UpdatedImageUrl := "bar.png" } ∧
    (onRecord decodeReply sampleStore Listener.start ⟨2024, 1, 2, 3, 4, 5, 0⟩
      ⟨replyPayload "bar.png"⟩).sent = [{ UpdatedImageUrl := "processed_image_20240102030405.png" }] ∧
    (onRecord decodeReply sampleStore Listener.start ⟨2024, 1, 2, 3, 4, 5, 0⟩
      ⟨replyPayload "bar.png"⟩).sent ≠ [{ UpdatedImageUrl := "bar.png" }] ∧
    (uploadHandler (postUpload [okItem "foo.png"
        (Wait.reply { UpdatedImageUrl := "processed_image_20240102030405.png" })])).w.body =
      "<div><img src=\x27/images/processed_image_20240102030405.png\x27 class=\x27uploaded-image\x27 alt=\x27Processed Image\x27></div>" := by
  decide

/-! ## Names of the downloaded images -/

/-- The layout of kafka.go:190 has no sub-second element: the name depends on
the clock reading only down to the second. -/
theorem Format_ignores_nanosecond (t : Time) (ns : Nat) :
    Time.Format { t with nanosecond := ns } = Time.Format t := rfl

/-! ## The upload handler -/

theorem Write_body (w : ResponseWriter) (data : String) :
    (w.Write data).body = w.body ++ data := by
  unfold ResponseWriter.Write ResponseWriter.WriteHeader
  cases w.status <;> rfl

theorem Write_status (w : ResponseWriter) (data : String) :
    (w.Write data).status = some (w.status.getD 200) := by
  unfold ResponseWriter.Write ResponseWriter.WriteHeader
  cases h : w.status <;> simp [h]

theorem httpError_status (w : ResponseWriter) (msg : String) (code : Nat) :
    (httpError w msg code).status = some (w.status.getD code) := by
  unfold httpError
  rw [Write_status]
  unfold ResponseWriter.WriteHeader
  cases h : w.status <;> simp [h]

theorem httpError_body (w : ResponseWriter) (msg : String) (code : Nat) :
    (httpError w msg code).body = w.body ++ (msg ++ "\n") := by
  unfold httpError
  rw [Write_body]
  unfold ResponseWriter.WriteHeader
  cases h : w.status <;> rfl

/-- The writer after the fragments of `rs` have been written to `w`. -/
theorem Write_fragments (rs : List KafkaMessageResponse) :
    ∀ w : ResponseWriter,
      (rs.foldl (fun acc r => acc.Write (fragment r)) w).body =
        w.body ++ concat (rs.map fragment) ∧
      (rs.foldl (fun acc r => acc.Write (fragment r)) w).status =
        if rs = [] then w.status else some (w.status.getD 200) := by
  induction rs with
  | nil => intro w; simp [concat]
  | cons r rest ih =>
    intro w
    obtain ⟨hb, hs⟩ := ih (w.Write (fragment r))
    simp only [List.foldl_cons, List.map_cons]
    rw [hb, hs, Write_body, Write_status]
    constructor
    · simp [concat, String.append_assoc]
    · by_cases hr : rest = [] <;> simp [hr]

/-- One iteration of the file loop on a file that is stored, published and
answered within the timeout. -/
theorem processFiles_reply (name : String) (r : KafkaMessageResponse) (rest : List UploadItem)
    (h : Handler) :
    processFiles (okItem name (Wait.reply r) :: rest) h =
      processFiles rest
        { w := h.w.Write (fragment r),
          exited := h.exited,
          uploaded := h.uploaded ++ [name],
          published := h.published ++ [NewMessage name],
          waited := h.waited + 1 } := by
  rw [processFiles]
  simp [okItem]

/-- The file loop on a prefix of files that are stored, published and answered:
it writes their fragments in order and goes on with the rest. -/
theorem processFiles_answered (ps : List (String × KafkaMessageResponse)) (rest : List UploadItem) :
    ∀ h : Handler,
      processFiles (ps.map (fun p => okItem p.1 (Wait.reply p.2)) ++ rest) h =
        processFiles rest
          { w := (ps.map Prod.snd).foldl (fun acc r => acc.Write (fragment r)) h.w,
            exited := h.exited,
            uploaded := h.uploaded ++ ps.map Prod.fst,
            published := h.published ++ ps.map (fun p => NewMessage p.1),
            waited := h.waited + ps.length } := by
  induction ps with
  | nil => intro h; simp
  | cons p ps ih =>
    intro h
    simp only [List.map_cons, List.cons_append, List.foldl_cons, List.length_cons]
    rw [processFiles_reply, ih]
    simp [List.append_assoc, Nat.add_assoc, Nat.add_comm 1]

/-- A `POST` whose form parsed and holds at least one file enters the file loop. -/
theorem uploadHandler_post (f : UploadItem) (files : List UploadItem) :
    uploadHandler (postUpload (f :: files)) =
      processFiles (f :: files)
        { w := { status := none, body := "" }, exited := false, uploaded := [],
          published := [], waited := 0 } := by
  simp [uploadHandler, postUpload]

/-- The handler on a request whose first files are answered and whose next
file `f` comes after them: the loop reaches `f` with their fragments written. -/
theorem uploadHandler_answered_then (ps : List (String × KafkaMessageResponse))
    (f : UploadItem) (post : List UploadItem) :
    uploadHandler (postUpload (ps.map (fun p => okItem p.1 (Wait.reply p.2)) ++ f :: post)) =
      processFiles (f :: post)
        { w := (ps.map Prod.snd).foldl (fun acc r => acc.Write (fragment r))
                 { status := none, body := "" },
          exited := false,
          uploaded := ps.map Prod.fst,
          published := ps.map (fun p => NewMessage p.1),
          waited := ps.length } := by
  have h := processFiles_answered ps (f :: post)
    { w := { status := none, body := "" }, exited := false, uploaded := [],
      published := [], waited := 0 }
  cases ps with
  | nil => simp [uploadHandler_post]
  | cons p ps =>
    simp only [List.map_cons, List.cons_append] at h ⊢
    rw [uploadHandler_post, h]
    simp

/-- When `UploadFile` fails for a file, after any number of answered files:
`log.Fatalf` ends the process, no status 500 is written (no status at all if
it is the first file), and the file is neither published nor waited for. -/
theorem upload_failure_exits (ps : List (String × KafkaMessageResponse))
    (f : UploadItem) (post : List UploadItem)
    (hopen : f.openErr = false) (hup : f.uploadErr = true) :
    (uploadHandler (postUpload
      (ps.map (fun p => okItem p.1 (Wait.reply p.2)) ++ f :: post))).exited = true ∧
    (uploadHandler (postUpload
      (ps.map (fun p => okItem p.1 (Wait.reply p.2)) ++ f :: post))).w.status =
        (if ps = [] then none else some 200) ∧
    (uploadHandler (postUpload
      (ps.map (fun p => okItem p.1 (Wait.reply p.2)) ++ f :: post))).published =
        ps.map (fun p => NewMessage p.1) ∧
    (uploadHandler (postUpload
      (ps.map (fun p => okItem p.1 (Wait.reply p.2)) ++ f :: post))).waited = ps.length := by
  rw [uploadHandler_answered_then, processFiles]
  simp only [hopen, hup, Bool.false_eq_true, if_false, if_true]
  refine ⟨trivial, ?_, trivial, trivial⟩
  rw [(Write_fragments (ps.map Prod.snd) _).2]
  cases ps <;> simp

/-- The theorem `upload_failure_exits` on a request with one file. -/
theorem upload_failure_exits_witness :
    (uploadHandler (postUpload
      [{ Filename := "foo.png", openErr := false, uploadErr := true, produceErr := false,
         wait := Wait.timedOut }])).exited = true :=
  (upload_failure_exits []
    { Filename := "foo.png", openErr := false, uploadErr := true, produceErr := false,
      wait := Wait.timedOut } [] rfl rfl).1

/-- When `ProduceMessage` fails for a file, after any number of answered
files: the handler returns without waiting; the status is 500 if it is the
first file of the request and stays 200 if a fragment was already written. -/
theorem produce_failure_status (ps : List (String × KafkaMessageResponse))
    (f : UploadItem) (post : List UploadItem)
    (hopen : f.openErr = false) (hup : f.uploadErr = false) (hprod : f.produceErr = true) :
    (uploadHandler (postUpload
      (ps.map (fun p => okItem p.1 (Wait.reply p.2)) ++ f :: post))).w.status =
        (if ps = [] then some 500 else some 200) ∧
    (uploadHandler (postUpload
      (ps.map (fun p => okItem p.1 (Wait.reply p.2)) ++ f :: post))).exited = false ∧
    (uploadHandler (postUpload
      (ps.map (fun p => okItem p.1 (Wait.reply p.2)) ++ f :: post))).published =
        ps.map (fun p => NewMessage p.1) ∧
    (uploadHandler (postUpload
      (ps.map (fun p => okItem p.1 (Wait.reply p.2)) ++ f :: post))).waited = ps.length := by
  rw [uploadHandler_answered_then, processFiles]
  simp only [hopen, hup, hprod, Bool.false_eq_true, if_false, if_true]
  refine ⟨?_, trivial, trivial, trivial⟩
  rw [httpError_status, (Write_fragments (ps.map Prod.snd) _).2]
  cases ps <;> simp

/-- The theorem `produce_failure_status` on a request with one file. -/
theorem produce_failure_status_witness :
    (uploadHandler (postUpload
      [{ Filename := "foo.png", openErr := false, uploadErr := false, produceErr := true,
         wait := Wait.timedOut }])).w.status = some 500 :=
  (produce_failure_status []
    { Filename := "foo.png", openErr := false, uploadErr := false, produceErr := true,
      wait := Wait.timedOut } [] rfl rfl rfl).1

/-- When the wait for a file times out, after any number of answered files:
the handler returns, no later file is stored or published; the status is 408
if it is the first file of the request and stays 200 if a fragment was already
written, the timeout message being appended to the body. -/
theorem timeout_status (ps : List (String × KafkaMessageResponse)) (name : String)
    (post : List UploadItem) :
    (uploadHandler (postUpload
      (ps.map (fun p => okItem p.1 (Wait.reply p.2)) ++ okItem name Wait.timedOut :: post))).w.status =
        (if ps = [] then some 408 else some 200) ∧
    (uploadHandler (postUpload
      (ps.map (fun p => okItem p.1 (Wait.reply p.2)) ++ okItem name Wait.timedOut :: post))).w.body =
        concat ((ps.map Prod.snd).map fragment) ++ "Timed out waiting for Kafka response\n" ∧
    (uploadHandler (postUpload
      (ps.map (fun p => okItem p.1 (Wait.reply p.2)) ++ okItem name Wait.timedOut :: post))).uploaded =
        ps.map Prod.fst ++ [name] ∧
    (uploadHandler (postUpload
      (ps.map (fun p => okItem p.1 (Wait.reply p.2)) ++ okItem name Wait.timedOut :: post))).published =
        ps.map (fun p => NewMessage p.1) ++ [NewMessage name] ∧
    (uploadHandler (postUpload
      (ps.map (fun p => okItem p.1 (Wait.reply p.2)) ++ okItem name Wait.timedOut :: post))).exited =
        false := by
  rw [uploadHandler_answered_then, processFiles]
  simp only [okItem, Bool.false_eq_true, if_false]
  refine ⟨?_, ?_, trivial, trivial, trivial⟩
  · rw [httpError_status, (Write_fragments (ps.map Prod.snd) _).2]
    cases ps <;> simp
  · rw [httpError_body, (Write_fragments (ps.map Prod.snd) _).1]
    simp

/-- C7 fails on the code: a `POST /upload` with the one file `foo.png` whose
`UploadFile` fails gets no status 500, indeed no response, and the process has
exited; a request whose second file fails in `ProduceMessage` after the first
was answered has status 200. -/
theorem upload_failure_no_500 :
    (uploadHandler (postUpload
      [{ Filename := "foo.png", openErr := false, uploadErr := true, produceErr := false,
         wait := Wait.timedOut }])).w.status = none ∧
    (uploadHandler (postUpload
      [{ Filename := "foo.png", openErr := false, uploadErr := true, produceErr := false,
         wait := Wait.timedOut }])).exited = true ∧
    (uploadHandler (postUpload
      [okItem "foo.png" (Wait.reply ⟨"processed_image_20240102030405.png"⟩),
       { Filename := "bar.png", openErr := false, uploadErr := false, produceErr := true,
         wait := Wait.timedOut }])).w.status = some 200 := by
  decide

/-- C8 fails on the code: in a request with two files where the first is
answered and the wait for the second times out, the status is 200, not 408;
the timeout text follows the first fragment in the body. -/
theorem timeout_after_fragment_is_200 :
    (uploadHandler (postUpload
      [okItem "foo.png" (Wait.reply ⟨"processed_image_20240102030405.png"⟩),
       okItem "bar.png" Wait.timedOut])).w =
      { status := some 200,
        body := "<div><img src=\x27/images/processed_image_20240102030405.png\x27 class=\x27uploaded-image\x27 alt=\x27Processed Image\x27></div>Timed out waiting for Kafka response\n" } ∧
    (uploadHandler (postUpload [okItem "bar.png" Wait.timedOut])).w.status = some 408 := by
  decide

/-! ## The response channel -/

theorem nodup_snoc {α : Type} (l : List α) (x : α) (h : l.Nodup) (hx : x ∉ l) :
    (l ++ [x]).Nodup := by
  rw [List.nodup_append]
  refine ⟨h, by simp, ?_⟩
  intro a ha hb
  simp at hb
  subst hb
  exact hx ha

theorem Inv_init : Inv ChanState.init := by
  constructor <;> simp [ChanState.init]

theorem step_Inv (s s' : ChanState) (e : Event) (hs : Inv s) (h : step s e = some s') :
    Inv s' := by
  obtain ⟨h1, h2, h3, h4, h5, h6, h7, h8⟩ := hs
  cases e with
  | publish j =>
    simp only [step] at h
    split at h
    · exact absurd h (by simp)
    · cases h
      exact ⟨h1, h2, h3, h4, h5, h6, h7, h8⟩
  | wait j =>
    simp only [step] at h
    split at h
    · rename_i hg
      obtain ⟨_, hq, hd⟩ := hg
      cases hq' : s.sendq with
      | some pv =>
        rw [hq'] at h
        simp only [Option.some.injEq] at h
        subst h
        have hr : s.recvq = [] := h7 (by simp [hq'])
        have hlt := h6 pv hq'
        rw [hq'] at h5 h8
        simp only at h5
        constructor
        · simpa using h1
        · simp only [List.map_append, List.map_cons, List.map_nil]
          refine nodup_snoc _ _ h2 ?_
          intro ha
          exact hd ha
        · simp [hr]
        · simp only [List.filterMap_append, List.filterMap_cons, List.filterMap_nil, deliveredIdx]
          refine nodup_snoc _ _ h4 ?_
          intro ha
          have := h5 _ ha
          omega
        · intro k hk
          simp only [List.filterMap_append, List.filterMap_cons, List.filterMap_nil, deliveredIdx,
            List.mem_append, List.mem_singleton] at hk
          simp only
          rcases hk with hk | hk
          · have := h5 k hk; omega
          · omega
        · intro pv2 h; simp at h
        · intro _; exact hr
        · simp only [List.filterMap_append, List.filterMap_cons, List.filterMap_nil, deliveredIdx,
            List.length_append, List.length_singleton]
          simp at h8 ⊢
          omega
      | none =>
        rw [hq'] at h
        simp only [Option.some.injEq] at h
        subst h
        rw [hq'] at h5 h8
        constructor
        · simp only
          refine nodup_snoc _ _ h1 ?_
          intro ha
          exact hq ha
        · exact h2
        · intro a ha
          simp only [List.mem_append, List.mem_singleton] at ha
          rcases ha with ha | ha
          · exact h3 a ha
          · subst ha; exact hd
        · exact h4
        · simpa [hq'] using h5
        · intro pv2 h; simp [hq'] at h
        · intro h; simp [hq'] at h
        · simpa [hq'] using h8
    · exact absurd h (by simp)
  | timeout j =>
    simp only [step] at h
    split at h
    · rename_i hj
      simp only [Option.some.injEq] at h
      subst h
      constructor
      · exact h1.erase j
      · simp only [List.map_append, List.map_cons, List.map_nil]
        refine nodup_snoc _ _ h2 ?_
        intro ha
        exact h3 _ hj ha
      · intro a ha
        have hne : a ≠ j := fun hc => by
          subst hc
          exact (List.Nodup.not_mem_erase h1) ha
        have ha' : a ∈ s.recvq := List.mem_of_mem_erase ha
        simp only [List.map_append, List.map_cons, List.map_nil, List.mem_append,
          List.mem_singleton, not_or]
        exact ⟨h3 a ha', hne⟩
      · simpa [deliveredIdx] using h4
      · simpa [deliveredIdx] using h5
      · exact h6
      · intro hne
        have := h7 hne
        simp [this]
      · simpa [deliveredIdx] using h8
    · exact absurd h (by simp)
  | send v =>
    simp only [step] at h
    cases hq' : s.sendq with
    | some pv => rw [hq'] at h; exact absurd h (by simp)
    | none =>
      rw [hq'] at h
      simp only at h
      rw [hq'] at h5 h8
      simp only at h5
      cases hr : s.recvq with
      | nil =>
        rw [hr] at h
        simp only [Option.some.injEq] at h
        subst h
        constructor
        · simp [hr]
        · exact h2
        · simp [hr]
        · exact h4
        · exact h5
        · intro pv2 h; simp at h; subst h; rfl
        · intro _; rfl
        · simp at h8 ⊢; omega
      | cons j rest =>
        rw [hr] at h
        simp only [Option.some.injEq] at h
        subst h
        rw [hr] at h1 h3
        constructor
        · exact (List.nodup_cons.mp h1).2
        · simp only [List.map_append, List.map_cons, List.map_nil]
          refine nodup_snoc _ _ h2 ?_
          intro ha
          exact h3 _ (by simp) ha
        · intro a ha
          have hne : a ≠ j := fun hc => by
            subst hc
            exact (List.nodup_cons.mp h1).1 ha
          simp only [List.map_append, List.map_cons, List.map_nil, List.mem_append,
            List.mem_singleton, not_or]
          exact ⟨h3 a (List.mem_cons_of_mem _ ha), hne⟩
        · simp only [List.filterMap_append, List.filterMap_cons, List.filterMap_nil, deliveredIdx]
          refine nodup_snoc _ _ h4 ?_
          intro ha
          have := h5 _ ha
          omega
        · intro k hk
          simp only [List.filterMap_append, List.filterMap_cons, List.filterMap_nil, deliveredIdx,
            List.mem_append, List.mem_singleton] at hk
          simp only [hq']
          rcases hk with hk | hk
          · have := h5 k hk; omega
          · omega
        · intro pv2 h; simp [hq'] at h
        · intro h; simp [hq'] at h
        · simp only [List.filterMap_append, List.filterMap_cons, List.filterMap_nil, deliveredIdx,
            List.length_append, List.length_singleton]
          simp [hq'] at h8 ⊢
          omega

theorem run_append (es1 es2 : List Event) :
    ∀ s : ChanState, run s (es1 ++ es2) = (run s es1).bind (fun s1 => run s1 es2) := by
  induction es1 with
  | nil => intro s; rfl
  | cons e es ih =>
    intro s
    simp only [List.cons_append, run]
    cases step s e with
    | none => rfl
    | some s1 => exact ih s1

theorem run_Inv (es : List Event) :
    ∀ s s' : ChanState, Inv s → run s es = some s' → Inv s' := by
  induction es with
  | nil => intro s s' hs h; simp only [run, Option.some.injEq] at h; subst h; exact hs
  | cons e es ih =>
    intro s s' hs h
    simp only [run] at h
    cases he : step s e with
    | none => rw [he] at h; exact absurd h (by simp)
    | some s1 =>
      rw [he] at h
      exact ih s1 s' (step_Inv s s1 e hs he) h

/-- A step only appends to the record of finished jobs. -/
theorem step_done (s s' : ChanState) (e : Event) (h : step s e = some s') :
    ∃ extra, s'.done = s.done ++ extra := by
  cases e with
  | publish j =>
    simp only [step] at h
    split at h
    · exact absurd h (by simp)
    · cases h; exact ⟨[], by simp⟩
  | wait j =>
    simp only [step] at h
    split at h
    · cases hq : s.sendq with
      | some pv => rw [hq] at h; cases h; exact ⟨_, rfl⟩
      | none => rw [hq] at h; cases h; exact ⟨[], by simp⟩
    · exact absurd h (by simp)
  | timeout j =>
    simp only [step] at h
    split at h
    · cases h; exact ⟨_, rfl⟩
    · exact absurd h (by simp)
  | send v =>
    simp only [step] at h
    cases hq : s.sendq with
    | some pv => rw [hq] at h; exact absurd h (by simp)
    | none =>
      rw [hq] at h
      cases hr : s.recvq with
      | nil => rw [hr] at h; cases h; exact ⟨[], by simp⟩
      | cons j rest => rw [hr] at h; cases h; exact ⟨_, rfl⟩

theorem run_done (es : List Event) :
    ∀ s s' : ChanState, run s es = some s' → ∃ extra, s'.done = s.done ++ extra := by
  induction es with
  | nil => intro s s' h; simp only [run, Option.some.injEq] at h; subst h; exact ⟨[], by simp⟩
  | cons e es ih =>
    intro s s' h
    simp only [run] at h
    cases he : step s e with
    | none => rw [he] at h; exact absurd h (by simp)
    | some s1 =>
      rw [he] at h
      obtain ⟨x1, h1⟩ := step_done s s1 e he
      obtain ⟨x2, h2⟩ := ih s1 s' h
      exact ⟨x1 ++ x2, by rw [h2, h1, List.append_assoc]⟩

/-- The outcome of a finished job does not change afterwards. -/
theorem outcome_stable (es : List Event) (s s' : ChanState) (j : Nat) (o : Outcome)
    (h : run s es = some s') (ho : s.outcome j = some o) : s'.outcome j = some o := by
  obtain ⟨extra, hx⟩ := run_done es s s' h
  unfold ChanState.outcome at ho ⊢
  rw [hx, List.lookup_append, ho]
  rfl

/-- A job with an outcome is in the record of finished jobs. -/
theorem mem_done_of_outcome (s : ChanState) (j : Nat) (o : Outcome)
    (ho : s.outcome j = some o) : j ∈ s.done.map Prod.fst := by
  unfold ChanState.outcome at ho
  rw [List.lookup_eq_some_iff] at ho
  obtain ⟨l1, l2, hl, _⟩ := ho
  rw [hl]
  simp

/-- Without timer events, the jobs that finish along a schedule are the jobs
waiting at its start followed by those that enter their `select`, paired in
that order with the value pending at its start followed by those sent. -/
theorem run_pairs (es : List Event) :
    ∀ s s' : ChanState, Inv s → (∀ e ∈ es, e.isTimeout = false) → run s es = some s' →
      s'.done = s.done ++
        pairUp (s.recvq ++ waitsIn es) (s.nextSend - s.sendq.toList.length)
          (s.sendq.toList.map Prod.snd ++ sendsIn es) := by
  induction es with
  | nil =>
    intro s s' hs _ h
    simp only [run, Option.some.injEq] at h
    subst h
    cases hq : s.sendq with
    | none =>
      simp [waitsIn, sendsIn]
      cases s.recvq <;> simp [pairUp]
    | some pv =>
      have := hs.blocked_idle (by simp [hq])
      simp [waitsIn, sendsIn, this, pairUp]
  | cons e es ih =>
    intro s s' hs hnt h
    simp only [run] at h
    cases he : step s e with
    | none => rw [he] at h; exact absurd h (by simp)
    | some s1 =>
      rw [he] at h
      have hs1 := step_Inv s s1 e hs he
      have hnt' : ∀ e ∈ es, e.isTimeout = false := fun x hx => hnt x (List.mem_cons_of_mem _ hx)
      have ih1 := ih s1 s' hs1 hnt' h
      rw [ih1]
      cases e with
      | publish j =>
        simp only [step] at he
        split at he
        · exact absurd he (by simp)
        · cases he
          simp [waitsIn, sendsIn]
      | wait j =>
        simp only [step] at he
        split at he
        · cases hq : s.sendq with
          | some pv =>
            rw [hq] at he
            cases he
            have hr := hs.blocked_idle (by simp [hq])
            have hp := hs.pending_idx pv hq
            simp only [hr, List.nil_append, Option.toList, List.length_nil, Nat.sub_zero,
              List.map_nil, List.length_singleton, List.map_cons, List.cons_append,
              List.append_assoc]
            have hw : waitsIn (Event.wait j :: es) = j :: waitsIn es := by simp [waitsIn]
            have hv : sendsIn (Event.wait j :: es) = sendsIn es := by simp [sendsIn]
            rw [hw, hv, pairUp]
            have : s.nextSend - 1 = pv.1 := by omega
            rw [this]
            have : pv.1 + 1 = s.nextSend := hp
            rw [this]
          | none =>
            rw [hq] at he
            cases he
            have hw : waitsIn (Event.wait j :: es) = j :: waitsIn es := by simp [waitsIn]
            have hv : sendsIn (Event.wait j :: es) = sendsIn es := by simp [sendsIn]
            simp [hq, hw, hv]
        · exact absurd he (by simp)
      | timeout j =>
        have := hnt (Event.timeout j) (by simp)
        simp [Event.isTimeout] at this
      | send v =>
        have hw : waitsIn (Event.send v :: es) = waitsIn es := by simp [waitsIn]
        have hv : sendsIn (Event.send v :: es) = v :: sendsIn es := by simp [sendsIn]
        simp only [step] at he
        cases hq : s.sendq with
        | some pv => rw [hq] at he; exact absurd he (by simp)
        | none =>
          rw [hq] at he
          cases hr : s.recvq with
          | nil =>
            rw [hr] at he
            cases he
            simp [hw, hv]
          | cons j rest =>
            rw [hr] at he
            cases he
            rw [hw, hv]
            simp [pairUp]

theorem pairUp_mem_fst (js : List Nat) :
    ∀ (k : Nat) (vs : List KafkaMessageResponse) (i j : Nat) (v : KafkaMessageResponse),
      js[i]? = some j → vs[i]? = some v → j ∈ (pairUp js k vs).map Prod.fst := by
  induction js with
  | nil => intro k vs i j v hj; simp at hj
  | cons j0 js ih =>
    intro k vs i j v hj hv
    cases vs with
    | nil => simp at hv
    | cons v0 vs =>
      cases i with
      | zero =>
        simp at hj
        subst hj
        simp [pairUp]
      | succ i =>
        simp only [List.getElem?_cons_succ] at hj hv
        simp only [pairUp, List.map_cons, List.mem_cons]
        exact Or.inr (ih (k + 1) vs i j v hj hv)

/-- In a pairing without a repeated job, the `i`-th job has the `i`-th value. -/
theorem pairUp_lookup (js : List Nat) :
    ∀ (k : Nat) (vs : List KafkaMessageResponse) (i j : Nat) (v : KafkaMessageResponse),
      ((pairUp js k vs).map Prod.fst).Nodup → js[i]? = some j → vs[i]? = some v →
      (pairUp js k vs).lookup j = some (Outcome.Satisfied (k + i) v) := by
  induction js with
  | nil => intro k vs i j v _ hj; simp at hj
  | cons j0 js ih =>
    intro k vs i j v hnd hj hv
    cases vs with
    | nil => simp at hv
    | cons v0 vs =>
      simp only [pairUp, List.map_cons, List.nodup_cons] at hnd
      cases i with
      | zero =>
        simp at hj hv
        subst hj
        subst hv
        simp [pairUp]
      | succ i =>
        simp only [List.getElem?_cons_succ] at hj hv
        have hmem := pairUp_mem_fst js (k + 1) vs i j v hj hv
        have hne : j ≠ j0 := fun hc => by
          subst hc
          exact hnd.1 hmem
        have hb : (j == j0) = false := by simpa using hne
        simp only [pairUp, List.lookup_cons, hb]
        rw [ih (k + 1) vs i j v hnd.2 hj hv]
        congr 2
        omega

/-- A job that is not in the record has no outcome. -/
theorem lookup_none_of_not_mem (l : List (Nat × Outcome)) (j : Nat)
    (h : j ∉ l.map Prod.fst) : l.lookup j = none := by
  rw [List.lookup_eq_none_iff]
  intro p hp
  have : j ≠ p.1 := fun hc => h (by rw [hc]; exact List.mem_map_of_mem _ hp)
  simpa using this

/-- Outcome of the `i`-th waiting or arriving job after a schedule without
timer events. -/
theorem run_pairs_outcome (es : List Event) (s s' : ChanState) (hs : Inv s)
    (hnt : ∀ e ∈ es, e.isTimeout = false) (h : run s es = some s')
    (i j : Nat) (v : KafkaMessageResponse)
    (hj : (s.recvq ++ waitsIn es)[i]? = some j)
    (hv : (s.sendq.toList.map Prod.snd ++ sendsIn es)[i]? = some v)
    (hfresh : j ∉ s.done.map Prod.fst) :
    s'.outcome j = some (Outcome.Satisfied (s.nextSend - s.sendq.toList.length + i) v) := by
  have hd := run_pairs es s s' hs hnt h
  have hs' := run_Inv es s s' hs h
  have hnd := hs'.done_nodup
  rw [hd, List.map_append, List.nodup_append] at hnd
  unfold ChanState.outcome
  rw [hd, List.lookup_append, lookup_none_of_not_mem _ _ hfresh]
  simp only [Option.or, Option.none_or]
  exact pairUp_lookup _ _ _ i j v hnd.2.1 hj hv

/-- Sends into a queue of at least as many waiting jobs all complete at once. -/
theorem run_sends (rs : List KafkaMessageResponse) :
    ∀ s : ChanState, s.sendq = none → rs.length ≤ s.recvq.length →
      ∃ s', run s (rs.map Event.send) = some s' ∧ s'.recvq = s.recvq.drop rs.length ∧
        s'.sendq = none := by
  induction rs with
  | nil => intro s hq _; exact ⟨s, rfl, by simp, hq⟩
  | cons r rs ih =>
    intro s hq hlen
    cases hr : s.recvq with
    | nil => rw [hr] at hlen; simp at hlen
    | cons j rest =>
      rw [hr] at hlen
      simp only [List.length_cons, Nat.add_le_add_iff_right] at hlen
      obtain ⟨s', h1, h2, h3⟩ :=
        ih { s with recvq := rest, sendq := none, nextSend := s.nextSend + 1,
                    done := s.done ++ [(j, Outcome.Satisfied s.nextSend r)] } rfl hlen
      refine ⟨s', ?_, ?_, h3⟩
      · simp only [List.map_cons, run, step, hq, hr]
        exact h1
      · simpa using h2

theorem selectOf_of_outcome (s : ChanState) (j k : Nat) (v : KafkaMessageResponse)
    (h : s.outcome j = some (Outcome.Satisfied k v)) : s.selectOf j = some (Wait.reply v) := by
  unfold ChanState.selectOf
  rw [h]

theorem requestItems_answered (s : ChanState) (names : List String) :
    ∀ (first : Nat) (rs : List KafkaMessageResponse), rs.length = names.length →
      (∀ i r, rs[i]? = some r → s.selectOf (first + i) = some (Wait.reply r)) →
      requestItems s first names =
        (names.zip rs).map (fun p => okItem p.1 (Wait.reply p.2)) := by
  induction names with
  | nil => intro first rs _ _; simp [requestItems]
  | cons n names ih =>
    intro first rs hlen hsel
    cases rs with
    | nil => simp at hlen
    | cons r rs =>
      simp only [List.length_cons, Nat.add_right_cancel_iff] at hlen
      have h0 := hsel 0 r (by simp)
      simp only [Nat.add_zero] at h0
      simp only [requestItems, h0, Option.getD_some, List.zip_cons_cons, List.map_cons]
      congr 1
      apply ih (first + 1) rs hlen
      intro i r' hr'
      have := hsel (i + 1) r' (by simpa using hr')
      rw [← this]
      congr 1
      omega

/-- The response to a request all of whose files are answered. -/
theorem uploadHandler_all_answered (p : String × KafkaMessageResponse)
    (ps : List (String × KafkaMessageResponse)) :
    (uploadHandler (postUpload ((p :: ps).map (fun q => okItem q.1 (Wait.reply q.2))))).w =
      { status := some 200, body := concat (((p :: ps).map Prod.snd).map fragment) } := by
  have h := processFiles_answered (p :: ps) []
    { w := { status := none, body := "" }, exited := false, uploaded := [],
      published := [], waited := 0 }
  simp only [List.append_nil] at h
  have hp : (p :: ps).map (fun q => okItem q.1 (Wait.reply q.2)) =
      okItem p.1 (Wait.reply p.2) :: ps.map (fun q => okItem q.1 (Wait.reply q.2)) := rfl
  rw [hp, uploadHandler_post, ← hp, h, processFiles]
  obtain ⟨hb, hs⟩ := Write_fragments ((p :: ps).map Prod.snd) { status := none, body := "" }
  simp only at hb hs ⊢
  have e : ∀ w : ResponseWriter, w = { status := w.status, body := w.body } := fun w => rfl
  rw [e (List.foldl _ _ _), hb, hs]
  simp

/-- C1: in any reachable state in which `N ≥ 1` jobs are blocked in their
`select` (in the order of `recvq`, the order in which they began to wait), the
`N` sends `r_1 .. r_N` of the listener all complete, and the `i`-th waiting job
receives exactly `r_i`.  In particular, for one request with `N` files that is
alone on the channel (its jobs `0 .. N-1` are the only ones that wait, no timer
fires, the listener sends `r_1 .. r_N`), under any interleaving the response
is the `N` fragments of `r_1 .. r_N` in that order. -/
theorem fifo_pairing (es : List Event) (s : ChanState) (rs : List KafkaMessageResponse)
    (hreach : run ChanState.init es = some s)
    (hN : 1 ≤ rs.length) (hlen : s.recvq.length = rs.length) :
    (∃ s', run s (rs.map Event.send) = some s' ∧ s'.recvq = [] ∧
      ∀ i j r, s.recvq[i]? = some j → rs[i]? = some r →
        s'.outcome j = some (Outcome.Satisfied (s.nextSend + i) r) ∧
        s'.selectOf j = some (Wait.reply r)) ∧
    (∀ (es1 : List Event) (s1 : ChanState) (names : List String),
      run ChanState.init es1 = some s1 → (∀ e ∈ es1, e.isTimeout = false) →
      waitsIn es1 = List.range rs.length → sendsIn es1 = rs → names.length = rs.length →
      (uploadHandler (postUpload (requestItems s1 0 names))).w =
        { status := some 200, body := concat (rs.map fragment) }) := by
  have hs : Inv s := run_Inv es _ s Inv_init hreach
  have hidle : s.sendq = none := by
    by_contra hne
    have hnil := hs.blocked_idle hne
    rw [hnil] at hlen
    simp only [List.length_nil] at hlen
    omega
  constructor
  · obtain ⟨s', hrun, hq, _⟩ := run_sends rs s hidle (by omega)
    refine ⟨s', hrun, by rw [hq, hlen.symm]; simp, ?_⟩
    intro i j r hj hr
    have hnt : ∀ e ∈ rs.map Event.send, e.isTimeout = false := by
      intro e he
      obtain ⟨v, _, hv⟩ := List.mem_map.mp he
      subst hv
      rfl
    have hw : waitsIn (rs.map Event.send) = [] := by
      simp [waitsIn, List.filterMap_map, Function.comp_def]
    have hv : sendsIn (rs.map Event.send) = rs := by
      simp [sendsIn, List.filterMap_map, Function.comp_def]
    have hmem : j ∈ s.recvq := List.getElem?_mem hj
    have ho := run_pairs_outcome (rs.map Event.send) s s' hs hnt hrun i j r
      (by rw [hw, List.append_nil]; exact hj)
      (by rw [hv, hidle]; simpa using hr)
      (hs.disjoint j hmem)
    rw [hidle] at ho
    simp only [Option.toList, List.length_nil, Nat.sub_zero] at ho
    exact ⟨ho, selectOf_of_outcome s' j _ r ho⟩
  · intro es1 s1 names hrun hnt hw hv hnames
    have hsel : ∀ i r, rs[i]? = some r → s1.selectOf (0 + i) = some (Wait.reply r) := by
      intro i r hr
      have hi : i < rs.length := by
        rcases Nat.lt_or_ge i rs.length with h | h
        · exact h
        · rw [List.getElem?_eq_none h] at hr; exact absurd hr (by simp)
      have ho := run_pairs_outcome es1 ChanState.init s1 Inv_init hnt hrun i i r
        (by simp [ChanState.init, hw, List.getElem?_range hi])
        (by simpa [ChanState.init, hv] using hr)
        (by simp [ChanState.init])
      rw [Nat.zero_add]
      exact selectOf_of_outcome s1 i _ r ho
    rw [requestItems_answered s1 names 0 rs hnames.symm hsel]
    cases hz : names.zip rs with
    | nil =>
      have : (names.zip rs).length = 0 := by rw [hz]; rfl
      rw [List.length_zip, hnames] at this
      omega
    | cons p ps =>
      rw [uploadHandler_all_answered, ← hz, List.map_snd_zip]
      omega

/-- The theorem `fifo_pairing` with two jobs waiting and two replies. -/
theorem fifo_pairing_witness :
    ∃ s', run
        { published := [0, 1], recvq := [0, 1], sendq := none, nextSend := 0, done := [] }
        ([⟨"processed_image_1.png"⟩, ⟨"processed_image_2.png"⟩].map Event.send) = some s' ∧
      s'.recvq = [] ∧
      ∀ i j r, ([0, 1] : List Nat)[i]? = some j →
        ([⟨"processed_image_1.png"⟩, ⟨"processed_image_2.png"⟩] :
          List KafkaMessageResponse)[i]? = some r →
        s'.outcome j = some (Outcome.Satisfied (0 + i) r) ∧
        s'.selectOf j = some (Wait.reply r) :=
  (fifo_pairing [Event.publish 0, Event.publish 1, Event.wait 0, Event.wait 1]
    { published := [0, 1], recvq := [0, 1], sendq := none, nextSend := 0, done := [] }
    [⟨"processed_image_1.png"⟩, ⟨"processed_image_2.png"⟩]
    (by decide) (by decide) rfl).1

set_option maxRecDepth 8192 in
/-- One request with two files, alone on the channel, the listener ahead of the
handler for the second file: the two fragments come in the order of the replies. -/
theorem solo_request_two_files :
    (run ChanState.init
      [Event.publish 0, Event.wait 0, Event.send ⟨"processed_image_1.png"⟩,
       Event.send ⟨"processed_image_2.png"⟩, Event.publish 1, Event.wait 1]).map
      (fun s => (uploadHandler (postUpload (requestItems s 0 ["foo.png", "bar.png"]))).w) =
    some { status := some 200,
           body := fragment ⟨"processed_image_1.png"⟩ ++ fragment ⟨"processed_image_2.png"⟩ } := by
  decide

theorem SentSoFar_init : SentSoFar [] ChanState.init := by
  constructor <;> simp [ChanState.init]

theorem step_SentSoFar (vs : List KafkaMessageResponse) (s s' : ChanState) (e : Event)
    (hs : SentSoFar vs s) (h : step s e = some s') : SentSoFar (vs ++ sendsIn [e]) s' := by
  obtain ⟨h1, h2, h3⟩ := hs
  have hpre : ∀ (k : Nat) (v : KafkaMessageResponse) (x : List KafkaMessageResponse),
      vs[k]? = some v → (vs ++ x)[k]? = some v := by
    intro k v x hk
    have hlt : k < vs.length := by
      rcases Nat.lt_or_ge k vs.length with hh | hh
      · exact hh
      · rw [List.getElem?_eq_none hh] at hk; exact absurd hk (by simp)
    rw [List.getElem?_append_left hlt]
    exact hk
  cases e with
  | publish j =>
    simp only [step] at h
    split at h
    · exact absurd h (by simp)
    · cases h
      have : sendsIn [Event.publish j] = [] := by simp [sendsIn]
      rw [this, List.append_nil]
      exact ⟨h1, h2, h3⟩
  | wait j =>
    have hv : sendsIn [Event.wait j] = [] := by simp [sendsIn]
    rw [hv, List.append_nil]
    simp only [step] at h
    split at h
    · cases hq : s.sendq with
      | some pv =>
        rw [hq] at h
        cases h
        refine ⟨h1, ?_, by intro pv2 hh; simp at hh⟩
        intro j' k v hm
        simp only [List.mem_append, List.mem_singleton, Prod.mk.injEq,
          Outcome.Satisfied.injEq] at hm
        rcases hm with hm | ⟨_, hk, hv'⟩
        · exact h2 j' k v hm
        · subst hk; subst hv'; exact h3 pv hq
      | none =>
        rw [hq] at h
        cases h
        exact ⟨h1, h2, by intro pv2 hh; simp [hq] at hh⟩
    · exact absurd h (by simp)
  | timeout j =>
    have hv : sendsIn [Event.timeout j] = [] := by simp [sendsIn]
    rw [hv, List.append_nil]
    simp only [step] at h
    split at h
    · cases h
      refine ⟨h1, ?_, h3⟩
      intro j' k v hm
      simp only [List.mem_append, List.mem_singleton, Prod.mk.injEq] at hm
      rcases hm with hm | ⟨_, hk⟩
      · exact h2 j' k v hm
      · exact absurd hk (by simp)
    · exact absurd h (by simp)
  | send v =>
    have hv : sendsIn [Event.send v] = [v] := by simp [sendsIn]
    rw [hv]
    simp only [step] at h
    cases hq : s.sendq with
    | some pv => rw [hq] at h; exact absurd h (by simp)
    | none =>
      rw [hq] at h
      have hnew : (vs ++ [v])[s.nextSend]? = some v := by
        rw [h1]; simp
      cases hr : s.recvq with
      | nil =>
        rw [hr] at h
        cases h
        refine ⟨by simp [h1], fun j' k v' hm => hpre k v' _ (h2 j' k v' hm), ?_⟩
        intro pv2 hh
        simp only [Option.some.injEq] at hh
        subst hh
        exact hnew
      | cons j rest =>
        rw [hr] at h
        cases h
        refine ⟨by simp [h1], ?_, by intro pv2 hh; simp at hh⟩
        intro j' k v' hm
        simp only [List.mem_append, List.mem_singleton, Prod.mk.injEq,
          Outcome.Satisfied.injEq] at hm
        rcases hm with hm | ⟨_, hk, hv'⟩
        · exact hpre k v' _ (h2 j' k v' hm)
        · subst hk; subst hv'; exact hnew

theorem run_SentSoFar (es : List Event) :
    ∀ (vs : List KafkaMessageResponse) (s s' : ChanState),
      SentSoFar vs s → run s es = some s' → SentSoFar (vs ++ sendsIn es) s' := by
  induction es with
  | nil =>
    intro vs s s' hs h
    simp only [run, Option.some.injEq] at h
    subst h
    simpa [sendsIn] using hs
  | cons e es ih =>
    intro vs s s' hs h
    simp only [run] at h
    cases he : step s e with
    | none => rw [he] at h; exact absurd h (by simp)
    | some s1 =>
      rw [he] at h
      have := ih _ s1 s' (step_SentSoFar vs s s1 e hs he) h
      have hc : sendsIn (e :: es) = sendsIn [e] ++ sendsIn es := by
        simp only [sendsIn]
        rw [← List.filterMap_append]
        rfl
      rw [hc, ← List.append_assoc]
      exact this

/-- C4: along every schedule of the listener and any number of handlers, no
two finished jobs hold the same send of the listener, what a job received is
the value of that send, a job has at most one outcome, and once a job's
`select` has ended its outcome stays what it is and the job is not waiting. -/
theorem at_most_once (es1 es2 : List Event) (s1 s2 : ChanState)
    (h1 : run ChanState.init es1 = some s1) (h2 : run s1 es2 = some s2) :
    (s2.done.filterMap deliveredIdx).Nodup ∧
    (∀ j k v, (j, Outcome.Satisfied k v) ∈ s2.done → (sendsIn (es1 ++ es2))[k]? = some v) ∧
    (s2.done.map Prod.fst).Nodup ∧
    (∀ j o, s1.outcome j = some o → s2.outcome j = some o ∧ j ∉ s2.recvq) := by
  have hrun : run ChanState.init (es1 ++ es2) = some s2 := by
    rw [run_append, h1]; exact h2
  have hinv : Inv s2 := run_Inv _ _ s2 Inv_init hrun
  have hsent := run_SentSoFar (es1 ++ es2) [] _ s2 SentSoFar_init hrun
  rw [List.nil_append] at hsent
  refine ⟨hinv.idx_nodup, hsent.received, hinv.done_nodup, ?_⟩
  intro j o ho
  have ho2 := outcome_stable es2 s1 s2 j o h2 ho
  exact ⟨ho2, fun hmem => hinv.disjoint j hmem (mem_done_of_outcome s2 j o ho2)⟩

/-- The theorem `at_most_once` on a schedule with a timeout, a blocked send and
two deliveries. -/
theorem at_most_once_witness :
    (([(0, Outcome.TimedOut), (1, Outcome.Satisfied 0 ⟨"processed_image_1.png"⟩),
       (2, Outcome.Satisfied 1 ⟨"processed_image_2.png"⟩)] :
        List (Nat × Outcome)).filterMap deliveredIdx).Nodup :=
  (at_most_once
    [Event.publish 0, Event.wait 0, Event.timeout 0, Event.send ⟨"processed_image_1.png"⟩]
    [Event.publish 1, Event.wait 1, Event.publish 2, Event.wait 2,
     Event.send ⟨"processed_image_2.png"⟩]
    { published := [0], recvq := [], sendq := some (0, ⟨"processed_image_1.png"⟩),
      nextSend := 1, done := [(0, Outcome.TimedOut)] }
    { published := [0, 1, 2], recvq := [], sendq := none, nextSend := 2,
      done := [(0, Outcome.TimedOut), (1, Outcome.Satisfied 0 ⟨"processed_image_1.png"⟩),
               (2, Outcome.Satisfied 1 ⟨"processed_image_2.png"⟩)] }
    (by decide) (by decide)).1

/-- C2 (as the code has it): when jobs `a` then `b` are published and the
replies `R1` then `R2` are sent, with no timer firing, the pairing follows the
order in which the handlers enter their `select`, not the publish order: if
`b` enters first, `b` receives `R1` and `a` receives `R2`; if `a` enters
first, `a` receives `R1` and `b` receives `R2`. -/
theorem pairing_follows_wait_order (es : List Event) (s : ChanState) (a b : Nat)
    (R1 R2 : KafkaMessageResponse)
    (hrun : run ChanState.init es = some s) (hnt : ∀ e ∈ es, e.isTimeout = false)
    (_hpub : publishesIn es = [a, b]) (hsend : sendsIn es = [R1, R2]) :
    (waitsIn es = [b, a] →
      s.outcome b = some (Outcome.Satisfied 0 R1) ∧ s.outcome a = some (Outcome.Satisfied 1 R2)) ∧
    (waitsIn es = [a, b] →
      s.outcome a = some (Outcome.Satisfied 0 R1) ∧ s.outcome b = some (Outcome.Satisfied 1 R2)) := by
  have key : ∀ x y : Nat, waitsIn es = [x, y] →
      s.outcome x = some (Outcome.Satisfied 0 R1) ∧
      s.outcome y = some (Outcome.Satisfied 1 R2) := by
    intro x y hw
    have h0 := run_pairs_outcome es ChanState.init s Inv_init hnt hrun 0 x R1
      (by simp [ChanState.init, hw]) (by simp [ChanState.init, hsend])
      (by simp [ChanState.init])
    have h1 := run_pairs_outcome es ChanState.init s Inv_init hnt hrun 1 y R2
      (by simp [ChanState.init, hw]) (by simp [ChanState.init, hsend])
      (by simp [ChanState.init])
    exact ⟨by simpa [ChanState.init] using h0, by simpa [ChanState.init] using h1⟩
  exact ⟨key b a, key a b⟩

/-- The theorem `pairing_follows_wait_order` on the schedule in which job 1,
published second, enters its `select` first. -/
theorem pairing_follows_wait_order_witness :
    run ChanState.init
      [Event.publish 0, Event.publish 1, Event.wait 1, Event.wait 0,
        Event.send ⟨"R1"⟩, Event.send ⟨"R2"⟩] =
      some { published := [0, 1], recvq := [], sendq := none, nextSend := 2,
             done := [(1, Outcome.Satisfied 0 ⟨"R1"⟩), (0, Outcome.Satisfied 1 ⟨"R2"⟩)] } ∧
    ChanState.outcome
      { published := [0, 1], recvq := [], sendq := none, nextSend := 2,
        done := [(1, Outcome.Satisfied 0 ⟨"R1"⟩), (0, Outcome.Satisfied 1 ⟨"R2"⟩)] } 1 =
      some (Outcome.Satisfied 0 ⟨"R1"⟩) ∧
    ChanState.outcome
      { published := [0, 1], recvq := [], sendq := none, nextSend := 2,
        done := [(1, Outcome.Satisfied 0 ⟨"R1"⟩), (0, Outcome.Satisfied 1 ⟨"R2"⟩)] } 0 =
      some (Outcome.Satisfied 1 ⟨"R2"⟩) :=
  ⟨by decide,
   (pairing_follows_wait_order
    [Event.publish 0, Event.publish 1, Event.wait 1, Event.wait 0,
      Event.send ⟨"R1"⟩, Event.send ⟨"R2"⟩]
    { published := [0, 1], recvq := [], sendq := none, nextSend := 2,
      done := [(1, Outcome.Satisfied 0 ⟨"R1"⟩), (0, Outcome.Satisfied 1 ⟨"R2"⟩)] }
    0 1 ⟨"R1"⟩ ⟨"R2"⟩ (by decide) (by decide) (by decide) (by decide)).1 (by decide)⟩

/-- C2 as stated fails: jobs 0 (A) then 1 (B) are published, B enters its
`select` first, `R1` then `R2` are sent; B receives `R1` and A receives `R2`,
both when the two jobs are waiting before `R1` is sent and when `R1` is sent
while only B is waiting. -/
theorem publish_order_not_followed :
    (run ChanState.init
      [Event.publish 0, Event.publish 1, Event.wait 1, Event.wait 0,
        Event.send ⟨"R1"⟩, Event.send ⟨"R2"⟩]).map
      (fun s => (s.selectOf 0, s.selectOf 1)) =
      some (some (Wait.reply ⟨"R2"⟩), some (Wait.reply ⟨"R1"⟩)) ∧
    (run ChanState.init
      [Event.publish 0, Event.publish 1, Event.wait 1, Event.send ⟨"R1"⟩,
        Event.wait 0, Event.send ⟨"R2"⟩]).map
      (fun s => (s.selectOf 0, s.selectOf 1)) =
      some (some (Wait.reply ⟨"R2"⟩), some (Wait.reply ⟨"R1"⟩)) := by
  decide

/-- While the listener is blocked in a send and nobody waits, the only events
that can happen before a job enters its `select` leave the channel as it is. -/
theorem run_blocked (pre : List Event) :
    ∀ (s s' : ChanState) (pv : Nat × KafkaMessageResponse),
      s.sendq = some pv → s.recvq = [] → (∀ e ∈ pre, e.isWait = false) →
      run s pre = some s' →
      s'.sendq = some pv ∧ s'.recvq = [] ∧ s'.done = s.done ∧ s'.nextSend = s.nextSend := by
  induction pre with
  | nil =>
    intro s s' pv hq hr _ h
    simp only [run, Option.some.injEq] at h
    subst h
    exact ⟨hq, hr, rfl, rfl⟩
  | cons e pre ih =>
    intro s s' pv hq hr hnw h
    simp only [run] at h
    cases he : step s e with
    | none => rw [he] at h; exact absurd h (by simp)
    | some s1 =>
      rw [he] at h
      have hnw' : ∀ e ∈ pre, e.isWait = false :=
        fun x hx => hnw x (List.mem_cons_of_mem _ hx)
      cases e with
      | publish j =>
        simp only [step] at he
        split at he
        · exact absurd he (by simp)
        · cases he
          exact ih { s with published := s.published ++ [j] } s' pv hq hr hnw' h
      | wait j =>
        have := hnw (Event.wait j) (by simp)
        simp [Event.isWait] at this
      | timeout j =>
        simp only [step, hr] at he
        simp at he
      | send v =>
        simp only [step, hq] at he
        exact absurd he (by simp)

/-- C3 (as the code has it): a send that finds no job waiting is not dropped.
It delivers to nobody at that moment and blocks the listener, which can start
no further send; the first job to enter its `select` afterwards receives that
value.  A job that had timed out before keeps that outcome. -/
theorem undelivered_reply_goes_to_next_waiter (s s' : ChanState) (v : KafkaMessageResponse)
    (pre rest : List Event) (j : Nat)
    (hq : s.recvq = []) (hidle : s.sendq = none)
    (hpre : ∀ e ∈ pre, e.isWait = false)
    (hrun : run s (Event.send v :: (pre ++ Event.wait j :: rest)) = some s') :
    step s (Event.send v) =
      some { s with sendq := some (s.nextSend, v), nextSend := s.nextSend + 1 } ∧
    (∀ v', (step s (Event.send v)).bind (fun s1 => step s1 (Event.send v')) = none) ∧
    s'.outcome j = some (Outcome.Satisfied s.nextSend v) ∧
    (∀ j0, s.outcome j0 = some Outcome.TimedOut → s'.outcome j0 = some Outcome.TimedOut) := by
  have hstep : step s (Event.send v) =
      some { s with sendq := some (s.nextSend, v), nextSend := s.nextSend + 1 } := by
    simp only [step, hidle, hq]
  refine ⟨hstep, ?_, ?_, ?_⟩
  · intro v'
    rw [hstep]
    simp [step]
  · simp only [run, hstep] at hrun
    rw [run_append] at hrun
    cases h1 : run { s with sendq := some (s.nextSend, v), nextSend := s.nextSend + 1 } pre with
    | none => rw [h1] at hrun; exact absurd hrun (by simp)
    | some s1 =>
      rw [h1] at hrun
      simp only [Option.bind, run] at hrun
      obtain ⟨b1, b2, b3, _⟩ := run_blocked pre
        { s with sendq := some (s.nextSend, v), nextSend := s.nextSend + 1 } s1
        (s.nextSend, v) rfl hq hpre h1
      cases h2 : step s1 (Event.wait j) with
      | none => rw [h2] at hrun; exact absurd hrun (by simp)
      | some s2 =>
        rw [h2] at hrun
        simp only at hrun
        apply outcome_stable rest s2 s' j _ hrun
        simp only [step, b1] at h2
        split at h2
        · rename_i hg
          cases h2
          unfold ChanState.outcome
          simp only
          rw [List.lookup_append, lookup_none_of_not_mem _ _ hg.2.2]
          simp [List.lookup]
        · exact absurd h2 (by simp)
  · intro j0 h0
    exact outcome_stable _ s s' j0 _ hrun h0

/-- The theorem `undelivered_reply_goes_to_next_waiter` after a job timed out:
the late reply goes to the next job. -/
theorem undelivered_reply_goes_to_next_waiter_witness :
    ChanState.outcome
      { published := [0, 1], recvq := [], sendq := none, nextSend := 1,
        done := [(0, Outcome.TimedOut), (1, Outcome.Satisfied 0 ⟨"late.png"⟩)] } 1 =
      some (Outcome.Satisfied 0 ⟨"late.png"⟩) :=
  (undelivered_reply_goes_to_next_waiter
    { published := [0], recvq := [], sendq := none, nextSend := 0,
      done := [(0, Outcome.TimedOut)] }
    { published := [0, 1], recvq := [], sendq := none, nextSend := 1,
      done := [(0, Outcome.TimedOut), (1, Outcome.Satisfied 0 ⟨"late.png"⟩)] }
    ⟨"late.png"⟩ [Event.publish 1] [] 1 rfl rfl (by decide) (by decide)).2.2.1

/-- C3 as stated fails: a reply sent when no job was ever started is received
by the job that starts waiting afterwards, and a reply sent after the only job
has timed out is received by the next job. -/
theorem late_reply_not_dropped :
    (run ChanState.init
      [Event.send ⟨"R"⟩, Event.publish 0, Event.wait 0]).map (fun s => s.selectOf 0) =
      some (some (Wait.reply ⟨"R"⟩)) ∧
    (run ChanState.init
      [Event.publish 0, Event.wait 0, Event.timeout 0, Event.send ⟨"R"⟩,
        Event.publish 1, Event.wait 1]).map (fun s => (s.selectOf 0, s.selectOf 1)) =
      some (some Wait.timedOut, some (Wait.reply ⟨"R"⟩)) := by
  decide

/-- Along every schedule, each value the listener sent has been received by a
job or is the one the listener is still blocked on: none is lost. -/
theorem no_reply_dropped (es : List Event) (s : ChanState)
    (h : run ChanState.init es = some s) :
    (s.done.filterMap deliveredIdx).length + (if s.sendq.isSome then 1 else 0) =
      (sendsIn es).length := by
  have hinv : Inv s := run_Inv es _ s Inv_init h
  have hsent := run_SentSoFar es [] _ s SentSoFar_init h
  rw [List.nil_append] at hsent
  rw [hinv.conserved, hsent.count]

/-- The theorem `no_reply_dropped` on a schedule that ends with the listener blocked. -/
theorem no_reply_dropped_witness :
    (([(0, Outcome.Satisfied 0 ⟨"R1"⟩)] : List (Nat × Outcome)).filterMap deliveredIdx).length +
      (if (some ((1 : Nat), (⟨"R2"⟩ : KafkaMessageResponse))).isSome then 1 else 0) =
      (sendsIn [Event.publish 0, Event.wait 0, Event.send ⟨"R1"⟩, Event.send ⟨"R2"⟩]).length :=
  no_reply_dropped [Event.publish 0, Event.wait 0, Event.send ⟨"R1"⟩, Event.send ⟨"R2"⟩]
    { published := [0], recvq := [], sendq := some (1, ⟨"R2"⟩), nextSend := 2,
      done := [(0, Outcome.Satisfied 0 ⟨"R1"⟩)] } (by decide)

/-! ## The listener loop on the channel -/

/-- The callback's own state is that of `onRecord`, and it touches the channel
only by the send of the value `replyFor` names. -/
theorem callback_eq (um : String → Option KafkaMessageResponse) (sc : ClientUploader)
    (st : Listener) (c : ChanState) (now : Time) (record : Record) :
    callback um sc st c now record =
      match replyFor um sc st.disk now record with
      | none => some (onRecord um sc st now record, c)
      | some v =>
        match step c (Event.send v) with
        | none => none
        | some c1 => some (onRecord um sc st now record, c1) := by
  unfold callback onRecord replyFor
  cases hu : um record.Value with
  | none => rfl
  | some m =>
    simp only
    rcases h1 : GetFile sc st.disk m.UpdatedImageUrl ("processed_image_" ++ now.Format ++ ".png")
      with ⟨e1, d1⟩
    cases e1 with
    | none => rfl
    | some e => rfl

/-- The three kinds of move: a handler's event, the end of a poll, the callback
on the next record. -/
theorem loopStep_cases (um : String → Option KafkaMessageResponse) (sc : ClientUploader)
    (l l1 : ListenLoop) (mv : Move) (h : loopStep um sc l mv = some l1) :
    (l1.st = l.st ∧ l1.fetches = l.fetches ∧
      ∃ e, sendsIn [e] = [] ∧ step l.responseChan e = some l1.responseChan) ∨
    (∃ later, l.fetches = [] :: later ∧ l1.fetches = later ∧
      l1.st = { l.st with polled := l.st.polled + 1 } ∧ l1.responseChan = l.responseChan) ∨
    (∃ now record batch later, l.fetches = ((now, record) :: batch) :: later ∧
      l1.fetches = batch :: later ∧ l1.st = onRecord um sc l.st now record ∧
      l.responseChan.sendq = none ∧
      ((replyFor um sc l.st.disk now record = none ∧ l1.responseChan = l.responseChan) ∨
       (∃ v, replyFor um sc l.st.disk now record = some v ∧
          step l.responseChan (Event.send v) = some l1.responseChan))) := by
  cases mv with
  | handler e =>
    left
    cases e with
    | send v => simp [loopStep] at h
    | publish j =>
      simp only [loopStep] at h
      cases hs : step l.responseChan (Event.publish j) with
      | none => rw [hs] at h; exact absurd h (by simp)
      | some c1 =>
        rw [hs] at h; cases h
        exact ⟨rfl, rfl, Event.publish j, by simp [sendsIn], hs⟩
    | wait j =>
      simp only [loopStep] at h
      cases hs : step l.responseChan (Event.wait j) with
      | none => rw [hs] at h; exact absurd h (by simp)
      | some c1 =>
        rw [hs] at h; cases h
        exact ⟨rfl, rfl, Event.wait j, by simp [sendsIn], hs⟩
    | timeout j =>
      simp only [loopStep] at h
      cases hs : step l.responseChan (Event.timeout j) with
      | none => rw [hs] at h; exact absurd h (by simp)
      | some c1 =>
        rw [hs] at h; cases h
        exact ⟨rfl, rfl, Event.timeout j, by simp [sendsIn], hs⟩
  | listener =>
    right
    simp only [loopStep] at h
    split at h
    · exact absurd h (by simp)
    · rename_i hq
      have hq' : l.responseChan.sendq = none := by
        cases hx : l.responseChan.sendq with
        | none => rfl
        | some pv => rw [hx] at hq; simp at hq
      cases hf : l.fetches with
      | nil => rw [hf] at h; exact absurd h (by simp)
      | cons batch later =>
        rw [hf] at h
        cases batch with
        | nil =>
          left
          simp only [Option.some.injEq] at h
          subst h
          exact ⟨later, rfl, rfl, rfl, rfl⟩
        | cons tr batch =>
          right
          obtain ⟨now, record⟩ := tr
          simp only at h
          rw [callback_eq] at h
          refine ⟨now, record, batch, later, rfl, ?_⟩
          cases hr : replyFor um sc l.st.disk now record with
          | none =>
            rw [hr] at h
            simp only [Option.some.injEq] at h
            subst h
            exact ⟨rfl, rfl, hq', Or.inl ⟨rfl, rfl⟩⟩
          | some v =>
            rw [hr] at h
            simp only at h
            cases hs : step l.responseChan (Event.send v) with
            | none => rw [hs] at h; exact absurd h (by simp)
            | some c1 =>
              rw [hs] at h
              simp only [Option.some.injEq] at h
              subst h
              exact ⟨rfl, rfl, hq', Or.inr ⟨v, rfl, hs⟩⟩

/-- Over every schedule, the listener has handled a prefix of the records, in
order, and has reached the send for exactly those of them that parse and
download, in order; the polls completed and those still to come add up. -/
theorem loop_prefix (um : String → Option KafkaMessageResponse) (sc : ClientUploader)
    (sch : List Move) :
    ∀ l l' : ListenLoop, ListenAndRespond um sc l sch = some l' →
      ∃ k, k ≤ l.fetches.flatten.length ∧
        l'.st.handled = l.st.handled + k ∧
        l'.st.sent = l.st.sent ++
          (l.fetches.flatten.take k).filterMap (fun tr => replyFor um sc l.st.disk tr.1 tr.2) ∧
        l'.fetches.flatten = l.fetches.flatten.drop k ∧
        l'.st.disk.locked = l.st.disk.locked ∧
        l'.st.polled + l'.fetches.length = l.st.polled + l.fetches.length := by
  induction sch with
  | nil =>
    intro l l' h
    simp only [ListenAndRespond, Option.some.injEq] at h
    subst h
    exact ⟨0, by simp⟩
  | cons mv sch ih =>
    intro l l' h
    simp only [ListenAndRespond] at h
    cases hs : loopStep um sc l mv with
    | none => rw [hs] at h; exact absurd h (by simp)
    | some l1 =>
      rw [hs] at h
      obtain ⟨k, hk, i1, i2, i3, i4, i5⟩ := ih l1 l' h
      rcases loopStep_cases um sc l l1 mv hs with
        ⟨e1, e2, _⟩ | ⟨later, e1, e2, e3, _⟩ | ⟨now, record, batch, later, e1, e2, e3, _⟩
      · simp only [e1, e2] at hk i1 i2 i3 i4 i5
        exact ⟨k, hk, i1, i2, i3, i4, i5⟩
      · simp only [e2, e3] at hk i1 i2 i3 i4 i5
        rw [e1]
        simp only [List.flatten_cons, List.nil_append, List.length_cons]
        exact ⟨k, hk, i1, i2, i3, i4, by omega⟩
      · obtain ⟨o1, o2, o3, o4⟩ := onRecord_effect um sc l.st now record
        have hc : ∀ x : Time × Record,
            replyFor um sc (onRecord um sc l.st now record).disk x.1 x.2 =
              replyFor um sc l.st.disk x.1 x.2 :=
          fun x => replyFor_congr um sc _ _ x.1 x.2 o4
        simp only [e2, e3, List.flatten_cons, List.length_cons] at hk i1 i2 i3 i4 i5
        rw [e1]
        simp only [List.flatten_cons, List.cons_append, List.length_cons]
        refine ⟨k + 1, by omega, by rw [i1, o2]; omega, ?_, ?_, by rw [i4, o4], by omega⟩
        · rw [i2, o1]
          simp only [hc, List.take_succ_cons, List.filterMap_cons]
          cases replyFor um sc l.st.disk now record <;> simp
        · rw [i3]; simp

/-- Over every schedule, what the channel has been given is what the listener
sent: the channel counts as many sends as `sent` has values, and a value
received by a job or pending in the blocked send is the value of `sent` with
that number. -/
theorem loop_SentSoFar (um : String → Option KafkaMessageResponse) (sc : ClientUploader)
    (sch : List Move) :
    ∀ l l' : ListenLoop, SentSoFar l.st.sent l.responseChan →
      ListenAndRespond um sc l sch = some l' → SentSoFar l'.st.sent l'.responseChan := by
  induction sch with
  | nil =>
    intro l l' hs h
    simp only [ListenAndRespond, Option.some.injEq] at h
    subst h
    exact hs
  | cons mv sch ih =>
    intro l l' hsent h
    simp only [ListenAndRespond] at h
    cases hs : loopStep um sc l mv with
    | none => rw [hs] at h; exact absurd h (by simp)
    | some l1 =>
      rw [hs] at h
      apply ih l1 l' _ h
      rcases loopStep_cases um sc l l1 mv hs with
        ⟨e1, _, e, he, hstep⟩ | ⟨later, _, _, e3, e4⟩ |
        ⟨now, record, batch, later, _, _, e3, _, hchan⟩
      · have := step_SentSoFar _ _ _ e hsent hstep
        rw [he, List.append_nil] at this
        rw [e1]; exact this
      · rw [e3, e4]; exact hsent
      · obtain ⟨o1, _, _, _⟩ := onRecord_effect um sc l.st now record
        rw [e3, o1]
        rcases hchan with ⟨hr, hc⟩ | ⟨v, hr, hstep⟩
        · rw [hr, hc]; simpa using hsent
        · rw [hr]
          have := step_SentSoFar _ _ _ (Event.send v) hsent hstep
          simpa [sendsIn] using this

theorem loop_append (um : String → Option KafkaMessageResponse) (sc : ClientUploader)
    (s1 s2 : List Move) :
    ∀ l : ListenLoop, ListenAndRespond um sc l (s1 ++ s2) =
      (ListenAndRespond um sc l s1).bind (fun l1 => ListenAndRespond um sc l1 s2) := by
  induction s1 with
  | nil => intro l; rfl
  | cons mv s1 ih =>
    intro l
    simp only [List.cons_append, ListenAndRespond]
    cases loopStep um sc l mv with
    | none => rfl
    | some l1 => exact ih l1

theorem Fresh_init : Fresh 0 ChanState.init := by
  constructor <;> simp [ChanState.init]

/-- With a fresh job published and waiting first, the listener handles the next
record without blocking, whatever the record is. -/
theorem serve_record (um : String → Option KafkaMessageResponse) (sc : ClientUploader)
    (l : ListenLoop) (j : Nat) (now : Time) (record : Record)
    (batch : List (Time × Record)) (later : List (List (Time × Record)))
    (hf : Fresh j l.responseChan) (hl : l.fetches = ((now, record) :: batch) :: later) :
    ∃ l1, ListenAndRespond um sc l
        [Move.handler (Event.publish j), Move.handler (Event.wait j), Move.listener] = some l1 ∧
      l1.fetches = batch :: later ∧ Fresh (j + 1) l1.responseChan := by
  obtain ⟨f1, f2, f3, f4⟩ := hf
  have hp : j ∉ l.responseChan.published := fun h => Nat.lt_irrefl _ (f1 j h)
  have hr : j ∉ l.responseChan.recvq := fun h => Nat.lt_irrefl _ (f2 j h)
  have hd : j ∉ l.responseChan.done.map Prod.fst := fun h => Nat.lt_irrefl _ (f3 j h)
  have hw : j ∈ l.responseChan.published ++ [j] := by simp
  cases hrep : replyFor um sc l.st.disk now record with
  | none =>
    refine ⟨{ st := onRecord um sc l.st now record,
              responseChan := { l.responseChan with
                published := l.responseChan.published ++ [j],
                recvq := l.responseChan.recvq ++ [j] },
              fetches := batch :: later }, ?_, rfl, ?_⟩
    · simp [ListenAndRespond, loopStep, step, hp, hr, hd, f4, hl, callback_eq, hrep]
    · constructor
      · intro x hx
        simp only [List.mem_append, List.mem_singleton] at hx
        rcases hx with hx | hx
        · have := f1 x hx; omega
        · omega
      · intro x hx
        simp only [List.mem_append, List.mem_singleton] at hx
        rcases hx with hx | hx
        · have := f2 x hx; omega
        · omega
      · intro x hx
        have := f3 x hx; omega
      · exact f4
  | some v =>
    cases hq : l.responseChan.recvq with
    | nil =>
      refine ⟨{ st := onRecord um sc l.st now record,
                responseChan := { l.responseChan with
                  published := l.responseChan.published ++ [j],
                  recvq := [],
                  nextSend := l.responseChan.nextSend + 1,
                  done := l.responseChan.done ++
                    [(j, Outcome.Satisfied l.responseChan.nextSend v)] },
                fetches := batch :: later }, ?_, rfl, ?_⟩
      · simp [ListenAndRespond, loopStep, step, hp, hd, f4, hl, callback_eq, hrep, hq]
      · constructor
        · intro x hx
          simp only [List.mem_append, List.mem_singleton] at hx
          rcases hx with hx | hx
          · have := f1 x hx; omega
          · omega
        · intro x hx; simp at hx
        · intro x hx
          simp only [List.map_append, List.map_cons, List.map_nil, List.mem_append,
            List.mem_singleton] at hx
          rcases hx with hx | hx
          · have := f3 x hx; omega
          · omega
        · exact f4
    | cons x0 rest =>
      have hx0 : x0 < j := f2 x0 (by rw [hq]; simp)
      have hne : ¬ j = x0 := by omega
      have hrest : j ∉ rest := fun h => hr (by rw [hq]; exact List.mem_cons_of_mem _ h)
      refine ⟨{ st := onRecord um sc l.st now record,
                responseChan := { l.responseChan with
                  published := l.responseChan.published ++ [j],
                  recvq := rest ++ [j],
                  nextSend := l.responseChan.nextSend + 1,
                  done := l.responseChan.done ++
                    [(x0, Outcome.Satisfied l.responseChan.nextSend v)] },
                fetches := batch :: later }, ?_, rfl, ?_⟩
      · simp [ListenAndRespond, loopStep, step, hp, hd, f4, hl, callback_eq, hrep, hq, hne,
          hrest]
      · constructor
        · intro x hx
          simp only [List.mem_append, List.mem_singleton] at hx
          rcases hx with hx | hx
          · have := f1 x hx; omega
          · omega
        · intro x hx
          simp only [List.mem_append, List.mem_singleton] at hx
          rcases hx with hx | hx
          · have := f2 x (by rw [hq]; exact List.mem_cons_of_mem _ hx); omega
          · omega
        · intro x hx
          simp only [List.map_append, List.map_cons, List.map_nil, List.mem_append,
            List.mem_singleton] at hx
          rcases hx with hx | hx
          · have := f3 x hx; omega
          · omega
        · exact f4

/-- With a handler waiting at every record, the listener gets through a poll. -/
theorem serve_batch (um : String → Option KafkaMessageResponse) (sc : ClientUploader)
    (batch : List (Time × Record)) :
    ∀ (j : Nat) (l : ListenLoop) (later : List (List (Time × Record))),
      Fresh j l.responseChan → l.fetches = batch :: later →
      ∃ l1, ListenAndRespond um sc l (serveBatch j batch) = some l1 ∧
        l1.fetches = later ∧ Fresh (j + batch.length) l1.responseChan := by
  induction batch with
  | nil =>
    intro j l later hf hl
    refine ⟨{ l with st := { l.st with polled := l.st.polled + 1 }, fetches := later }, ?_,
      rfl, hf⟩
    simp [serveBatch, ListenAndRespond, loopStep, hf.idle, hl]
  | cons tr batch ih =>
    intro j l later hf hl
    obtain ⟨now, record⟩ := tr
    obtain ⟨l1, h1, h2, h3⟩ := serve_record um sc l j now record batch later hf hl
    obtain ⟨l2, h4, h5, h6⟩ := ih (j + 1) l1 later h3 h2
    refine ⟨l2, ?_, h5, ?_⟩
    · simp only [serveBatch]
      rw [loop_append, h1]
      exact h4
    · have : j + (batch.length + 1) = j + 1 + batch.length := by omega
      rw [List.length_cons, this]
      exact h6

/-- With a handler waiting at every record, the listener gets through all the polls. -/
theorem serve_all (um : String → Option KafkaMessageResponse) (sc : ClientUploader)
    (polls : List (List (Time × Record))) :
    ∀ (j : Nat) (l : ListenLoop), Fresh j l.responseChan → l.fetches = polls →
      ∃ l1, ListenAndRespond um sc l (serve j polls) = some l1 ∧ l1.fetches = [] := by
  induction polls with
  | nil => intro j l _ hl; exact ⟨l, rfl, hl⟩
  | cons batch later ih =>
    intro j l hf hl
    obtain ⟨l1, h1, h2, h3⟩ := serve_batch um sc batch j l later hf hl
    obtain ⟨l2, h4, h5⟩ := ih (j + batch.length) l1 h3 h2
    refine ⟨l2, ?_, h5⟩
    simp only [serve]
    rw [loop_append, h1]
    exact h4

/-- C6: a record that fails to parse, or whose image cannot be fetched, is
handled by the listener without any send: the channel is left as it is and the
listener is not blocked, so the loop goes on.  Over every schedule of the
listener and the handlers, the records handled so far are a prefix of the
polls' records and the values given to the channel are exactly, in order,
those of the handled records that parse and download.  The send of kafka.go:197
blocks until a handler receives: with a handler waiting at every record the
listener gets through all the polls, and whenever it has got through them,
every record was handled, every poll completed, and the values sent are those
of all the good records in their original order. -/
theorem ListenAndRespond_skips_malformed (um : String → Option KafkaMessageResponse)
    (sc : ClientUploader) (disk : Disk) (polls : List (List (Time × Record))) :
    (∀ (l : ListenLoop) (now : Time) (record : Record) (batch : List (Time × Record))
        (later : List (List (Time × Record))),
      l.responseChan.sendq = none → l.fetches = ((now, record) :: batch) :: later →
      replyFor um sc l.st.disk now record = none →
      loopStep um sc l Move.listener =
        some { st := onRecord um sc l.st now record, responseChan := l.responseChan,
               fetches := batch :: later } ∧
      (onRecord um sc l.st now record).sent = l.st.sent) ∧
    (∀ (sch : List Move) (l' : ListenLoop),
      ListenAndRespond um sc (boot disk polls) sch = some l' →
      ∃ k, k ≤ polls.flatten.length ∧ l'.st.handled = k ∧
        l'.st.sent =
          (polls.flatten.take k).filterMap (fun tr => replyFor um sc disk tr.1 tr.2) ∧
        l'.fetches.flatten = polls.flatten.drop k ∧
        SentSoFar l'.st.sent l'.responseChan) ∧
    (∃ l', ListenAndRespond um sc (boot disk polls) (serve 0 polls) = some l' ∧
      l'.fetches = []) ∧
    (∀ (sch : List Move) (l' : ListenLoop),
      ListenAndRespond um sc (boot disk polls) sch = some l' → l'.fetches = [] →
      l'.st.polled = polls.length ∧ l'.st.handled = polls.flatten.length ∧
      l'.st.sent = polls.flatten.filterMap (fun tr => replyFor um sc disk tr.1 tr.2)) ∧
    (∀ (now : Time) (record : Record) (v : KafkaMessageResponse),
      replyFor um sc disk now record = some v ↔
        ∃ m, um record.Value = some m ∧
          (GetFile sc disk m.UpdatedImageUrl
            ("processed_image_" ++ now.Format ++ ".png")).1 = none ∧
          v = { UpdatedImageUrl := "processed_image_" ++ now.Format ++ ".png" }) := by
  refine ⟨?_, ?_, ?_, ?_, ?_⟩
  · intro l now record batch later hq hf hrep
    constructor
    · simp [loopStep, hq, hf, callback_eq, hrep]
    · have := (onRecord_effect um sc l.st now record).1
      rw [hrep] at this
      simpa using this
  · intro sch l' h
    obtain ⟨k, hk, h1, h2, h3, _, _⟩ := loop_prefix um sc sch _ l' h
    refine ⟨k, hk, by simpa [boot] using h1, by simpa [boot] using h2, h3, ?_⟩
    exact loop_SentSoFar um sc sch (boot disk polls) l' SentSoFar_init h
  · exact serve_all um sc polls 0 (boot disk polls) Fresh_init rfl
  · intro sch l' h hdone
    obtain ⟨k, hk, h1, h2, h3, _, h5⟩ := loop_prefix um sc sch _ l' h
    simp only [boot] at hk h1 h2 h3 h5
    rw [hdone] at h3 h5
    simp only [List.flatten_nil, List.length_nil, Nat.add_zero, Nat.zero_add] at h3 h5
    have hk2 : polls.flatten.length ≤ k := by
      have := congrArg List.length h3
      simp only [List.length_nil, List.length_drop] at this
      omega
    have hkeq : k = polls.flatten.length := Nat.le_antisymm hk hk2
    refine ⟨h5, by rw [h1, hkeq]; simp, ?_⟩
    rw [h2, hkeq, List.take_length]
    simp
  · intro now record v
    unfold replyFor
    cases hu : um record.Value with
    | none => simp
    | some m =>
      simp only
      rcases hg : GetFile sc disk m.UpdatedImageUrl
        ("processed_image_" ++ now.Format ++ ".png") with ⟨e1, d1⟩
      cases e1 with
      | none =>
        simp only [Option.some.injEq]
        constructor
        · intro h; exact ⟨m, rfl, by rw [hg], h.symm⟩
        · rintro ⟨m2, _, _, hv⟩; exact hv.symm
      | some e =>
        constructor
        · intro h; exact absurd h (by simp)
        · rintro ⟨m2, hm, hg2, _⟩
          have hm2 : m2 = m := (Option.some.inj hm).symm
          subst hm2
          rw [hg] at hg2
          exact absurd hg2 (by simp)

/-- One poll with a malformed record between two good ones, a handler waiting
at every record: the listener handles all three records, completes the poll,
and the two good replies are received, in order, by the first two jobs. -/
theorem listener_bad_record_between :
    (ListenAndRespond decodeReply sampleStore
      (boot { files := [], locked := [] }
        [[(⟨2024, 1, 2, 3, 4, 5, 0⟩, ⟨replyPayload "bar.png"⟩),
          (⟨2024, 1, 2, 3, 4, 6, 0⟩, ⟨"not json"⟩),
          (⟨2024, 1, 2, 3, 4, 7, 0⟩, ⟨replyPayload "baz.png"⟩)]])
      (serve 0
        [[(⟨2024, 1, 2, 3, 4, 5, 0⟩, ⟨replyPayload "bar.png"⟩),
          (⟨2024, 1, 2, 3, 4, 6, 0⟩, ⟨"not json"⟩),
          (⟨2024, 1, 2, 3, 4, 7, 0⟩, ⟨replyPayload "baz.png"⟩)]])).map
      (fun l => (l.st.sent, l.st.handled, l.st.polled, l.responseChan.selectOf 0,
        l.responseChan.selectOf 1)) =
    some ([⟨"processed_image_20240102030405.png"⟩, ⟨"processed_image_20240102030407.png"⟩],
      3, 1, some (Wait.reply ⟨"processed_image_20240102030405.png"⟩),
      some (Wait.reply ⟨"processed_image_20240102030407.png"⟩)) := by
  decide

/-- The same poll with no handler ever waiting: the listener handles the first
record, blocks in its send, and can make no further move; the poll is not
completed. -/
theorem listener_stalls_without_receiver :
    (ListenAndRespond decodeReply sampleStore
      (boot { files := [], locked := [] }
        [[(⟨2024, 1, 2, 3, 4, 5, 0⟩, ⟨replyPayload "bar.png"⟩),
          (⟨2024, 1, 2, 3, 4, 6, 0⟩, ⟨"not json"⟩),
          (⟨2024, 1, 2, 3, 4, 7, 0⟩, ⟨replyPayload "baz.png"⟩)]])
      [Move.listener]).map
      (fun l => (l.st.handled, l.st.polled, l.responseChan.sendq)) =
      some (1, 0, some (0, ⟨"processed_image_20240102030405.png"⟩)) ∧
    ListenAndRespond decodeReply sampleStore
      (boot { files := [], locked := [] }
        [[(⟨2024, 1, 2, 3, 4, 5, 0⟩, ⟨replyPayload "bar.png"⟩),
          (⟨2024, 1, 2, 3, 4, 6, 0⟩, ⟨"not json"⟩),
          (⟨2024, 1, 2, 3, 4, 7, 0⟩, ⟨replyPayload "baz.png"⟩)]])
      [Move.listener, Move.listener] = none := by
  decide

/-- C10 fails on the code: two different records of one poll, handled at two
different instants of the same second with a handler waiting for each, get the
same local file name; both sends carry that name, both jobs receive it, and
the file holds the second image only. -/
theorem same_second_names_collide :
    (⟨2024, 1, 2, 3, 4, 5, 100⟩ : Time) ≠ ⟨2024, 1, 2, 3, 4, 5, 900000000⟩ ∧
    "processed_image_" ++ Time.Format ⟨2024, 1, 2, 3, 4, 5, 100⟩ ++ ".png" =
      "processed_image_" ++ Time.Format ⟨2024, 1, 2, 3, 4, 5, 900000000⟩ ++ ".png" ∧
    (ListenAndRespond decodeReply sampleStore
      (boot { files := [], locked := [] }
        [[(⟨2024, 1, 2, 3, 4, 5, 100⟩, ⟨replyPayload "bar.png"⟩),
          (⟨2024, 1, 2, 3, 4, 5, 900000000⟩, ⟨replyPayload "baz.png"⟩)]])
      [Move.handler (Event.publish 0), Move.handler (Event.wait 0),
       Move.handler (Event.publish 1), Move.handler (Event.wait 1),
       Move.listener, Move.listener]).map
      (fun l => (l.st.sent,
        l.st.disk.read "./static/images/processed_image_20240102030405.png",
        l.responseChan.selectOf 0, l.responseChan.selectOf 1)) =
    some ([{ UpdatedImageUrl := "processed_image_20240102030405.png" },
           { UpdatedImageUrl := "processed_image_20240102030405.png" }],
      some "bytes of baz",
      some (Wait.reply { UpdatedImageUrl := "processed_image_20240102030405.png" }),
      some (Wait.reply { UpdatedImageUrl := "processed_image_20240102030405.png" })) := by
  decide

end BatchClient
